import Mathlib

/-!
Verification of the tool-bridge and agent-loop code of this repository
(`05_context7_bridge_tools.py`, `07_responses_api_bash_and_mcp_agent_demo.py`,
`utils.py`, `defs.py`) against its natural-language specification.

The Python code is shallowly embedded: Python values that flow through the
checked code (JSON-decoded data, tool schemas, tool-call arguments) are
modelled by the inductive `Json`; Python strings are Lean `String`s viewed as
their lists of code points; the stateful agent loop is an explicit
state-passing recursion over a deterministic environment oracle that stands
for the remote inference service, the local shell, the remote MCP server and
the interactive user.
-/

set_option maxHeartbeats 1000000

namespace OdscAgents

mutual

/-- A JSON-like Python value: the payloads that `json.loads` / `json.dumps`,
tool schemas and tool-call arguments range over.  `obj` models a Python
`dict` with string keys in insertion order (keys are unique in any value
produced by `json.loads`, and all operations below read the first binding).
The element sequences are the mutual inductives `JsonList` / `JsonFields`
(isomorphic to `List Json` / `List (String × Json)`) so that every
recursion over values is structural. -/
inductive Json where
  | null : Json
  | bool (b : Bool) : Json
  | num (n : Int) : Json
  | str (s : String) : Json
  | arr (elems : JsonList) : Json
  | obj (fields : JsonFields) : Json

/-- The elements of a JSON array. -/
inductive JsonList where
  | nil : JsonList
  | cons (hd : Json) (tl : JsonList) : JsonList

/-- The fields of a JSON object, in insertion order. -/
inductive JsonFields where
  | nil : JsonFields
  | cons (key : String) (val : Json) (tl : JsonFields) : JsonFields

end

/-- Build the field sequence of a JSON object from a list literal. -/
def JsonFields.ofList : List (String × Json) → JsonFields
  | [] => .nil
  | (k, v) :: t => .cons k v (JsonFields.ofList t)

/-- View the field sequence of a JSON object as a list of pairs. -/
def JsonFields.toList : JsonFields → List (String × Json)
  | .nil => []
  | .cons k v t => (k, v) :: JsonFields.toList t

/-- Build the element sequence of a JSON array from a list literal. -/
def JsonList.ofList : List Json → JsonList
  | [] => .nil
  | v :: t => .cons v (JsonList.ofList t)

/-- View the element sequence of a JSON array as a list. -/
def JsonList.toList : JsonList → List Json
  | .nil => []
  | .cons v t => v :: JsonList.toList t

/-- A JSON object from a list of fields (`\x7b...\x7d` literal). -/
def mkObj (l : List (String × Json)) : Json := Json.obj (JsonFields.ofList l)

/-- A JSON array from a list of elements. -/
def mkArr (l : List Json) : Json := Json.arr (JsonList.ofList l)

/-- Whether a JSON array has no elements. -/
def JsonList.isEmpty : JsonList → Bool
  | .nil => true
  | .cons _ _ => false

/-- Whether a JSON object has no fields. -/
def JsonFields.isEmpty : JsonFields → Bool
  | .nil => true
  | .cons _ _ _ => false

mutual

/-- Decidable equality of `Json` (the derive handler does not support
mutual inductives, so the instance is spelled out; the recursion is
structural, so concrete instances evaluate by kernel reduction). -/
def decEqJson : (a b : Json) → Decidable (a = b)
  | .null, .null => isTrue rfl
  | .null, .bool _ => isFalse (fun h => Json.noConfusion h)
  | .null, .num _ => isFalse (fun h => Json.noConfusion h)
  | .null, .str _ => isFalse (fun h => Json.noConfusion h)
  | .null, .arr _ => isFalse (fun h => Json.noConfusion h)
  | .null, .obj _ => isFalse (fun h => Json.noConfusion h)
  | .bool _, .null => isFalse (fun h => Json.noConfusion h)
  | .bool a, .bool b =>
      match decEq a b with
      | isTrue h => isTrue (by rw [h])
      | isFalse h => isFalse (fun hh => h (Json.bool.inj hh))
  | .bool _, .num _ => isFalse (fun h => Json.noConfusion h)
  | .bool _, .str _ => isFalse (fun h => Json.noConfusion h)
  | .bool _, .arr _ => isFalse (fun h => Json.noConfusion h)
  | .bool _, .obj _ => isFalse (fun h => Json.noConfusion h)
  | .num _, .null => isFalse (fun h => Json.noConfusion h)
  | .num _, .bool _ => isFalse (fun h => Json.noConfusion h)
  | .num a, .num b =>
      match decEq a b with
      | isTrue h => isTrue (by rw [h])
      | isFalse h => isFalse (fun hh => h (Json.num.inj hh))
  | .num _, .str _ => isFalse (fun h => Json.noConfusion h)
  | .num _, .arr _ => isFalse (fun h => Json.noConfusion h)
  | .num _, .obj _ => isFalse (fun h => Json.noConfusion h)
  | .str _, .null => isFalse (fun h => Json.noConfusion h)
  | .str _, .bool _ => isFalse (fun h => Json.noConfusion h)
  | .str _, .num _ => isFalse (fun h => Json.noConfusion h)
  | .str a, .str b =>
      match decEq a b with
      | isTrue h => isTrue (by rw [h])
      | isFalse h => isFalse (fun hh => h (Json.str.inj hh))
  | .str _, .arr _ => isFalse (fun h => Json.noConfusion h)
  | .str _, .obj _ => isFalse (fun h => Json.noConfusion h)
  | .arr _, .null => isFalse (fun h => Json.noConfusion h)
  | .arr _, .bool _ => isFalse (fun h => Json.noConfusion h)
  | .arr _, .num _ => isFalse (fun h => Json.noConfusion h)
  | .arr _, .str _ => isFalse (fun h => Json.noConfusion h)
  | .arr a, .arr b =>
      match decEqJsonList a b with
      | isTrue h => isTrue (by rw [h])
      | isFalse h => isFalse (fun hh => h (Json.arr.inj hh))
  | .arr _, .obj _ => isFalse (fun h => Json.noConfusion h)
  | .obj _, .null => isFalse (fun h => Json.noConfusion h)
  | .obj _, .bool _ => isFalse (fun h => Json.noConfusion h)
  | .obj _, .num _ => isFalse (fun h => Json.noConfusion h)
  | .obj _, .str _ => isFalse (fun h => Json.noConfusion h)
  | .obj _, .arr _ => isFalse (fun h => Json.noConfusion h)
  | .obj a, .obj b =>
      match decEqJsonFields a b with
      | isTrue h => isTrue (by rw [h])
      | isFalse h => isFalse (fun hh => h (Json.obj.inj hh))

/-- Decidable equality of `JsonList`. -/
def decEqJsonList : (a b : JsonList) → Decidable (a = b)
  | .nil, .nil => isTrue rfl
  | .nil, .cons _ _ => isFalse (fun h => JsonList.noConfusion h)
  | .cons _ _, .nil => isFalse (fun h => JsonList.noConfusion h)
  | .cons a t, .cons b u =>
      match decEqJson a b, decEqJsonList t u with
      | isTrue h1, isTrue h2 => isTrue (by rw [h1, h2])
      | isFalse h1, _ =>
          isFalse (by intro h; injection h with hh _; exact h1 hh)
      | _, isFalse h2 =>
          isFalse (by intro h; injection h with _ ht; exact h2 ht)

/-- Decidable equality of `JsonFields`. -/
def decEqJsonFields : (a b : JsonFields) → Decidable (a = b)
  | .nil, .nil => isTrue rfl
  | .nil, .cons _ _ _ => isFalse (fun h => JsonFields.noConfusion h)
  | .cons _ _ _, .nil => isFalse (fun h => JsonFields.noConfusion h)
  | .cons k a t, .cons k2 b u =>
      match decEq k k2, decEqJson a b, decEqJsonFields t u with
      | isTrue h1, isTrue h2, isTrue h3 => isTrue (by rw [h1, h2, h3])
      | isFalse h1, _, _ =>
          isFalse (by intro h; injection h with hk _ _; exact h1 hk)
      | _, isFalse h2, _ =>
          isFalse (by intro h; injection h with _ hv _; exact h2 hv)
      | _, _, isFalse h3 =>
          isFalse (by intro h; injection h with _ _ ht; exact h3 ht)

end

instance : DecidableEq Json := decEqJson

instance : DecidableEq JsonList := decEqJsonList

instance : DecidableEq JsonFields := decEqJsonFields

namespace Json

/-- Python truthiness of a JSON-like value (`bool(x)`):
`None`, `False`, `0`, `""`, `[]` and `\x7b\x7d` are falsy. -/
def truthy : Json → Bool
  | .null => false
  | .bool b => b
  | .num n => n != 0
  | .str s => s != ""
  | .arr elems => !elems.isEmpty
  | .obj fields => !fields.isEmpty


/-- Whether the value is a Python `dict` (`isinstance(s, dict)`). -/
def isObj : Json → Bool
  | .obj _ => true
  | _ => false

end Json

/-- First binding of a key in an association list (Python dict lookup;
keys are unique in dicts, so first = only). -/
def alistLookup {β : Type} (l : List (String × β)) (k : String) : Option β :=
  match l with
  | [] => none
  | (k2, v) :: t => if k2 == k then some v else alistLookup t k

/-- Whether a key is present (`k in d`). -/
def alistHasKey {β : Type} (l : List (String × β)) (k : String) : Bool :=
  match l with
  | [] => false
  | p :: t => p.1 == k || alistHasKey t k

/-- Python `d[k] = v`: replaces the value in place if the key exists
(keeping its insertion position), otherwise appends a new binding. -/
def alistInsert {β : Type} (l : List (String × β)) (k : String) (v : β) :
    List (String × β) :=
  match l with
  | [] => [(k, v)]
  | p :: t => if p.1 == k then (k, v) :: t else p :: alistInsert t k v

/-- Python `d.pop(k, None)`: removes the binding for `k` if present. -/
def alistErase {β : Type} (l : List (String × β)) (k : String) :
    List (String × β) :=
  match l with
  | [] => []
  | p :: t => if p.1 == k then alistErase t k else p :: alistErase t k

/-- `d.get(k, default)` on a value known to be a dict. -/
def objGet (fields : List (String × Json)) (k : String) (d : Json) : Json :=
  match alistLookup fields k with
  | some v => v
  | none => d

/-- Lower-case hexadecimal digit. -/
def hexDigit (n : Nat) : Char :=
  if n < 10 then Char.ofNat (48 + n) else Char.ofNat (87 + (n % 16))

/-- Four-digit lower-case hexadecimal rendering of `n % 0x10000`
(the `\uXXXX` payload used by `json.dumps`). -/
def hex4 (n : Nat) : String :=
  String.mk [hexDigit ((n / 4096) % 16), hexDigit ((n / 256) % 16),
    hexDigit ((n / 16) % 16), hexDigit (n % 16)]

/-- Escape of one character inside a JSON string literal, as produced by
CPython `json.dumps`: `"` and `\` and the named control escapes, `\uXXXX`
for other control characters, and — when `ensure_ascii=True` — `\uXXXX`
(with surrogate pairs above the BMP) for every non-ASCII character. -/
def jsonEscapeChar (ensureAscii : Bool) (c : Char) : String :=
  if c = '"' then "\\\""
  else if c = '\\' then "\\\\"
  else if c = '\n' then "\\n"
  else if c = '\t' then "\\t"
  else if c = '\r' then "\\r"
  else if c = Char.ofNat 8 then "\\b"
  else if c = Char.ofNat 12 then "\\f"
  else if c.toNat < 32 then "\\u" ++ hex4 c.toNat
  else if ensureAscii && c.toNat > 126 then
    if c.toNat ≤ 0xFFFF then "\\u" ++ hex4 c.toNat
    else
      let m := c.toNat - 0x10000
      "\\u" ++ hex4 (0xD800 + m / 1024) ++ "\\u" ++ hex4 (0xDC00 + m % 1024)
  else String.singleton c

/-- JSON string literal (quoted, escaped). -/
def jsonQuote (ensureAscii : Bool) (s : String) : String :=
  "\"" ++ String.join (s.data.map (jsonEscapeChar ensureAscii)) ++ "\""

/-- `indent * level` spaces. -/
def pad (indent level : Nat) : String :=
  String.mk (List.replicate (indent * level) ' ')

mutual

/-- CPython `json.dumps(v, ensure_ascii=ea, indent=ind)` at nesting level
`lvl`, where `ind = none` is the default compact form (item separator
`", "`, key separator `": "`) and `ind = some k` is the indented form. -/
def dumps (ea : Bool) (ind : Option Nat) (lvl : Nat) : Json → String
  | .null => "null"
  | .bool b => if b then "true" else "false"
  | .num n => toString n
  | .str s => jsonQuote ea s
  | .arr elems =>
      match elems with
      | .nil => "[]"
      | .cons _ _ =>
          match ind with
          | none => "[" ++ dumpsArr ea none 0 ", " elems ++ "]"
          | some k =>
              "[\n" ++ pad k (lvl + 1) ++
                dumpsArr ea (some k) (lvl + 1) (",\n" ++ pad k (lvl + 1)) elems ++
                "\n" ++ pad k lvl ++ "]"
  | .obj fields =>
      match fields with
      | .nil => "\x7b\x7d"
      | .cons _ _ _ =>
          match ind with
          | none => "\x7b" ++ dumpsObj ea none 0 ", " fields ++ "\x7d"
          | some k =>
              "\x7b\n" ++ pad k (lvl + 1) ++
                dumpsObj ea (some k) (lvl + 1) (",\n" ++ pad k (lvl + 1)) fields ++
                "\n" ++ pad k lvl ++ "\x7d"

/-- Separator-joined rendering of the elements of a JSON array. -/
def dumpsArr (ea : Bool) (ind : Option Nat) (lvl : Nat) (sep : String) :
    JsonList → String
  | .nil => ""
  | .cons e .nil => dumps ea ind lvl e
  | .cons e (.cons e2 t2) =>
      dumps ea ind lvl e ++ sep ++ dumpsArr ea ind lvl sep (.cons e2 t2)

/-- Separator-joined rendering of the fields of a JSON object. -/
def dumpsObj (ea : Bool) (ind : Option Nat) (lvl : Nat) (sep : String) :
    JsonFields → String
  | .nil => ""
  | .cons key val .nil => jsonQuote ea key ++ ": " ++ dumps ea ind lvl val
  | .cons key val (.cons k2 v2 t2) =>
      jsonQuote ea key ++ ": " ++ dumps ea ind lvl val ++ sep ++
        dumpsObj ea ind lvl sep (.cons k2 v2 t2)

end

/-- `json.dumps(v)` with default keyword arguments (`ensure_ascii=True`,
no indent), as used for serializing a `CommandResult`. -/
def dumpsDefault (v : Json) : String := dumps true none 0 v

/-- `json.dumps(v, ensure_ascii=False, indent=2)`, as used by
`_flatten_mcp_tool_result`. -/
def dumpsIndent2 (v : Json) : String := dumps false (some 2) 0 v

/-- The single-quote character, U+0027. -/
def squote : Char := Char.ofNat 39

/-- Two-digit lower-case hexadecimal rendering of `n % 256`. -/
def hex2 (n : Nat) : String := String.mk [hexDigit ((n / 16) % 16), hexDigit (n % 16)]

/-- One character of a CPython string `repr`, escaped for the chosen quote
character: backslash, the quote itself, `\n`, `\r`, `\t`, and `\xXX` for the
remaining ASCII control characters. -/
def pyReprChar (q : Char) (c : Char) : String :=
  if c = '\\' then "\\\\"
  else if c = q then String.mk ['\\', q]
  else if c = '\n' then "\\n"
  else if c = '\r' then "\\r"
  else if c = '\t' then "\\t"
  else if c.toNat < 32 || c.toNat = 127 then "\\x" ++ hex2 c.toNat
  else String.singleton c

/-- CPython `repr` of a string: single-quoted, switching to double quotes when
the string contains a single quote but no double quote. -/
def pyReprString (s : String) : String :=
  let q : Char :=
    if s.data.contains squote && !(s.data.contains '"') then '"' else squote
  String.singleton q ++ String.join (s.data.map (pyReprChar q)) ++ String.singleton q

mutual

/-- CPython `repr` of a JSON-like value: `None` / `True` / `False`, decimal
integers, quoted strings, and bracketed containers with `", "`
separators. -/
def pyRepr : Json → String
  | .null => "None"
  | .bool b => if b then "True" else "False"
  | .num n => toString n
  | .str s => pyReprString s
  | .arr elems => "[" ++ pyReprArr elems ++ "]"
  | .obj fields => "\x7b" ++ pyReprObj fields ++ "\x7d"

/-- `", "`-separated reprs of the elements of a JSON array. -/
def pyReprArr : JsonList → String
  | .nil => ""
  | .cons e .nil => pyRepr e
  | .cons e (.cons e2 t) => pyRepr e ++ ", " ++ pyReprArr (.cons e2 t)

/-- `", "`-separated `repr(k): repr(v)` fields of a JSON object. -/
def pyReprObj : JsonFields → String
  | .nil => ""
  | .cons k v .nil => pyReprString k ++ ": " ++ pyRepr v
  | .cons k v (.cons k2 v2 t) =>
      pyReprString k ++ ": " ++ pyRepr v ++ ", " ++ pyReprObj (.cons k2 v2 t)

end

/-- CPython `str` of a JSON-like value: the string itself for strings,
`repr` otherwise. -/
def pyStrJson : Json → String
  | .str s => s
  | v => pyRepr v

-- ---------------------------------------------------------------------------
-- MCP tool result content parts and `Context7Dispatcher._flatten_mcp_tool_result`
-- (src/07_responses_api_bash_and_mcp_agent_demo.py, lines 68-106)
-- ---------------------------------------------------------------------------

/-- A Python value carried by the `json` / `data` attribute of an MCP content
part: either a JSON-serializable value, or a foreign object on which
`json.dumps` raises (modelled with its `str(...)` rendering and its
truthiness). -/
inductive PyVal where
  | jsonVal (j : Json)
  | foreignVal (rep : String) (isTruthy : Bool)
deriving DecidableEq

/-- Python truthiness of a `PyVal`. -/
def PyVal.truthy : PyVal → Bool
  | .jsonVal j => j.truthy
  | .foreignVal _ t => t

/-- `str(obj)` of a `PyVal`. -/
def PyVal.pyStr : PyVal → String
  | .jsonVal j => pyStrJson j
  | .foreignVal r _ => r

/-- `json.dumps(obj, ensure_ascii=False, indent=2)` on a `PyVal`: succeeds
exactly on serializable values (`try ... except` in the source). -/
def PyVal.dumpsIndented : PyVal → Option String
  | .jsonVal j => some (dumpsIndent2 j)
  | .foreignVal _ _ => none

/-- One content part of an MCP tool call result as probed by
`_flatten_mcp_tool_result` with `getattr`: an optional `text` attribute, an
optional `json` attribute, an optional `data` attribute (`none` models both a
missing attribute and an attribute holding `None`), and the `str(c)`
rendering used as the final fallback. -/
structure ContentPart where
  text : Option String
  jsonAttr : Option PyVal
  dataAttr : Option PyVal
  rep : String
deriving DecidableEq

/-- Python `a or b` on an optional value vs. a fallback option
(`getattr(c, "json", None) or getattr(c, "data", None)`). -/
def pyOrVal (a : Option PyVal) (b : Option PyVal) : Option PyVal :=
  match a with
  | some v => if v.truthy then some v else b
  | none => b

/-- The fragment contributed by one content part in
`_flatten_mcp_tool_result`: the `text` attribute when it is not `None`;
otherwise `json or data` serialized as indented non-ASCII-preserving JSON,
falling back to `str(obj)` when serialization raises; otherwise `str(c)`. -/
def flattenPart (c : ContentPart) : String :=
  match c.text with
  | some t => t
  | none =>
      match pyOrVal c.jsonAttr c.dataAttr with
      | some v =>
          match v.dumpsIndented with
          | some s => s
          | none => v.pyStr
      | none => c.rep

/-- `Context7Dispatcher._flatten_mcp_tool_result`: flattens the
`result.content` parts (`none` models a missing or `None` attribute, i.e.
`getattr(result, "content", []) or []`) and joins the fragments with
newline separators.  The trailing `if p is not None` filter in the source is
vacuous because every appended fragment is a string. -/
def flattenMcpToolResult (content : Option (List ContentPart)) : String :=
  let parts := (match content with
    | some l => if l.isEmpty then [] else l
    | none => []).map flattenPart
  String.intercalate "\n" parts

-- ---------------------------------------------------------------------------
-- String sanitization helpers and `_sanitize_function_name`
-- (src/05_context7_bridge_tools.py, lines 15-30)
-- ---------------------------------------------------------------------------

/-- The characters stripped by Python `str.strip()` with no argument
(ASCII whitespace; other Unicode whitespace, also stripped by CPython, is
irrelevant here because every non-`[a-z0-9_]` character is replaced by an
underscore downstream). -/
def isPyWs (c : Char) : Bool :=
  c = ' ' || c = '\t' || c = '\n' || c = '\r' || c = Char.ofNat 11 || c = Char.ofNat 12

/-- Python `s.strip()` / `s.strip(chars)`: remove the maximal prefix and
suffix of characters satisfying `p` (`List.rdropWhile` drops the maximal
suffix). -/
def pyStripChars (p : Char → Bool) (s : String) : String :=
  String.mk ((s.data.dropWhile p).rdropWhile p)

/-- Python `s.strip()` (whitespace). -/
def pyStrip (s : String) : String := pyStripChars isPyWs s

/-- ASCII lower-casing of one character (`str.lower()`; non-ASCII case
mappings are irrelevant here because every character outside `[a-z0-9_]` is
replaced by an underscore downstream). -/
def asciiLower (c : Char) : Char :=
  if 'A' ≤ c && c ≤ 'Z' then Char.ofNat (c.toNat + 32) else c

/-- Python `s.lower()` (over the ASCII range relevant here). -/
def pyLower (s : String) : String := String.mk (s.data.map asciiLower)

/-- Membership in the character class `[a-z0-9_]`. -/
def isSanitizedChar (c : Char) : Bool :=
  ('a' ≤ c && c ≤ 'z') || ('0' ≤ c && c ≤ '9') || c = '_'

/-- `re.sub(r"[^a-z0-9_]", "_", ·)` on a list of characters. -/
def replaceBad (l : List Char) : List Char :=
  l.map (fun c => if isSanitizedChar c then c else '_')

/-- `re.sub(r"_+", "_", ·)`: collapse each run of underscores to one. -/
def collapseU : List Char → List Char
  | [] => []
  | [c] => [c]
  | a :: b :: t =>
      if a = '_' && b = '_' then collapseU (b :: t) else a :: collapseU (b :: t)

/-- `re.match(r"^[a-zA-Z_]", ·)`: the first character is a letter or an
underscore. -/
def startsWithLetterOrUnderscore : List Char → Bool
  | [] => false
  | c :: _ => ('a' ≤ c && c ≤ 'z') || ('A' ≤ c && c ≤ 'Z') || c = '_'

/-- `.strip("_")` on a list of characters: drop the maximal run of
underscores at each end. -/
def stripUnderscore (l : List Char) : List Char :=
  (l.dropWhile (· = '_')).rdropWhile (· = '_')

/-- The label-independent body shared by `_sanitize_function_name` and its
spec description: lower-case, replace every character outside `[a-z0-9_]`
with an underscore (`re.sub(r"[^a-z0-9_]", "_", n)`), collapse runs of
underscores (`re.sub(r"_+", "_", n)`), strip leading/trailing underscores
(`.strip("_")`), and fall back to `"tool_" + (n or "mcp")` when the result
is empty or does not start with a letter or underscore. -/
def sanitizeBody (l : List Char) : List Char :=
  let n2 := stripUnderscore (collapseU (replaceBad (l.map asciiLower)))
  if n2.isEmpty || !startsWithLetterOrUnderscore n2 then
    "tool_".data ++ (if n2.isEmpty then "mcp".data else n2)
  else n2

/-- `_sanitize_function_name(name, prefix=label)`: strip and lower-case the
raw name, replace every character outside `[a-z0-9_]` with an underscore,
collapse runs of underscores, strip leading/trailing underscores, fall back
to `"tool_" + (n or "mcp")` when the result is empty or does not start with
a letter or underscore, prepend `label + "__"` when the label is non-empty,
and truncate to 64 characters. -/
def sanitizeFunctionName (name : String) (label : String) : String :=
  let n3 := sanitizeBody (pyStrip name).data
  let n4 := if label != "" then label.data ++ "__".data ++ n3 else n3
  String.mk (n4.take 64)

/-- The module constant `SERVER_LABEL = "context7"`. -/
def SERVER_LABEL : String := "context7"

-- ---------------------------------------------------------------------------
-- `_normalize_schema` (src/05_context7_bridge_tools.py, lines 33-53)
-- ---------------------------------------------------------------------------

/-- `_normalize_schema(s)`: a non-dict input yields the default object
schema; a dict is deep-copied (the embedding is pure, which models the
`copy.deepcopy` guarantee that the callers original descriptor is never
mutated), its `$schema` key is popped, `type` defaults to `"object"` when
absent, and `properties` defaults to an empty dict when the type is
`"object"` and no properties were supplied. -/
def normalizeSchema : Json → Json
  | .obj fields =>
      let f1 := alistErase fields.toList "$schema"
      let f2 :=
        if alistHasKey f1 "type" then f1 else f1 ++ [("type", Json.str "object")]
      let f3 :=
        if objGet f2 "type" Json.null = Json.str "object" &&
            !alistHasKey f2 "properties" then
          f2 ++ [("properties", mkObj [])]
        else f2
      Json.obj (JsonFields.ofList f3)
  | _ => mkObj [("type", Json.str "object"), ("properties", mkObj [])]

-- ---------------------------------------------------------------------------
-- `bridge_mcp_tools_to_function_tools` (src/05_context7_bridge_tools.py,
-- lines 56-99)
-- ---------------------------------------------------------------------------

/-- An MCP tool descriptor as probed with `getattr` by the bridge: each
field is `none` when the attribute is missing or holds `None`. -/
structure McpToolDesc where
  name : Option String
  toolName : Option String
  description : Option String
  title : Option String
  input_schema : Option Json
  inputSchema : Option Json
deriving DecidableEq

/-- Python `a or b` for an optional string against an optional fallback. -/
def pyOrStr (a : Option String) (b : Option String) : Option String :=
  match a with
  | some s => if s != "" then some s else b
  | none => b

/-- Python `a or b` for an optional JSON value against a JSON fallback. -/
def pyOrJson (a : Option Json) (b : Json) : Json :=
  match a with
  | some v => if v.truthy then v else b
  | none => b

/-- `getattr(t, "name", None) or getattr(t, "toolName", None)` followed by
the `if not name: continue` guard: the effective raw tool name, or `none`
when the descriptor is skipped. -/
def McpToolDesc.effectiveName (t : McpToolDesc) : Option String :=
  match pyOrStr t.name t.toolName with
  | some s => if s == "" then none else some s
  | none => none

/-- `getattr(t, "description", None) or getattr(t, "title", "") or ""`. -/
def McpToolDesc.effectiveDesc (t : McpToolDesc) : String :=
  match pyOrStr t.description t.title with
  | some s => s
  | none => ""

/-- `getattr(t, "input_schema", None) or getattr(t, "inputSchema", None)
or \x7b\x7d`. -/
def McpToolDesc.effectiveSchema (t : McpToolDesc) : Json :=
  pyOrJson t.input_schema (pyOrJson t.inputSchema (mkObj []))

/-- One Responses-API function tool produced by the bridge.  The constant
`"type": "function"` field is not modelled; `strict` is never set by the
code. -/
structure FunctionTool where
  name : String
  description : String
  parameters : Json
deriving DecidableEq

/-- One reverse-index entry: `\x7b"server_label": ..., "mcp_name": ...\x7d`. -/
structure ReverseEntry where
  server_label : String
  mcp_name : String
deriving DecidableEq

/-- The loop body of `bridge_mcp_tools_to_function_tools`, threading the
`tools` and `reverse_index` accumulators. -/
def bridgeAux (label : String) :
    List McpToolDesc → List FunctionTool → List (String × ReverseEntry) →
      List FunctionTool × List (String × ReverseEntry)
  | [], tools, ridx => (tools, ridx)
  | t :: rest, tools, ridx =>
      match t.effectiveName with
      | none => bridgeAux label rest tools ridx
      | some nm =>
          let fnName := sanitizeFunctionName nm label
          let params := normalizeSchema t.effectiveSchema
          let desc := t.effectiveDesc
          let tool : FunctionTool :=
            { name := fnName
              description := if desc != "" then desc else nm
              parameters := params }
          bridgeAux label rest (tools ++ [tool])
            (alistInsert ridx fnName ⟨label, nm⟩)

/-- `bridge_mcp_tools_to_function_tools(mcp_tools, server_label)`. -/
def bridgeMcpToolsToFunctionTools (mcpTools : List McpToolDesc)
    (label : String) : List FunctionTool × List (String × ReverseEntry) :=
  bridgeAux label mcpTools [] []

-- ---------------------------------------------------------------------------
-- `defs.CommandResult` and `utils.run_bash`
-- ---------------------------------------------------------------------------

/-- `defs.CommandResult`: the result of executing a local bash command. -/
structure CommandResult where
  command : String
  returncode : Int
  stdout : String
  stderr : String
deriving DecidableEq

/-- `json.dumps(dataclasses.asdict(result))` serializes the fields in
declaration order. -/
def cmdResultJson (r : CommandResult) : Json :=
  mkObj [("command", Json.str r.command), ("returncode", Json.num r.returncode),
    ("stdout", Json.str r.stdout), ("stderr", Json.str r.stderr)]

/-- What the spawned shell command does in the modelled world: either it
completes within the timeout with an exit code and captured output, or it
exceeds the timeout. -/
inductive BashOutcome where
  | completed (returncode : Int) (stdout stderr : String)
  | timedOut
deriving DecidableEq

/-- The observable effect of one `subprocess.run(["bash", "-lc", command],
capture_output=True, text=True, timeout=...)` call. -/
inductive SubprocessEffect where
  | returned (returncode : Int) (stdout stderr : String)
  | raisedTimeoutExpired (childKilled : Bool)
deriving DecidableEq

/-- Modelled from the CPython standard library (`subprocess.run` is not part
of this repository): on normal completion a `CompletedProcess` is returned;
when the timeout expires, `subprocess.run` kills the spawned process
(`process.kill()` in its `except TimeoutExpired` handler) and re-raises
`TimeoutExpired`, so the child is never left running. -/
def subprocessRun (o : BashOutcome) : SubprocessEffect :=
  match o with
  | .completed rc out err => .returned rc out err
  | .timedOut => .raisedTimeoutExpired true

/-- The exceptions that can propagate out of one iteration of the agent
loop in the embedding. -/
inductive RunErr where
  /-- `subprocess.TimeoutExpired`, raised by `subprocess.run` inside
  `utils.run_bash` and caught nowhere. -/
  | timeoutExpired (command : String)
  /-- `AttributeError`, e.g. `args_obj.get(...)` on a non-dict decoded
  arguments value. -/
  | attrError (what : String)
  /-- `TypeError` / `ValueError`, e.g. `int(...)` of a non-numeric value or
  a non-string command handed to `subprocess`. -/
  | castError (what : String)
deriving DecidableEq

/-- `utils.run_bash(command, cwd, timeout_sec)`: wraps `subprocess.run` and
builds a `CommandResult`; a `TimeoutExpired` is not caught and propagates. -/
def runBash (o : BashOutcome) (command : String) : Except RunErr CommandResult :=
  match subprocessRun o with
  | .returned rc out err => .ok ⟨command, rc, out, err⟩
  | .raisedTimeoutExpired _ => .error (.timeoutExpired command)

-- ---------------------------------------------------------------------------
-- Responses-API items and `BashAndMcpAgent._extract_function_calls`
-- (src/07_responses_api_bash_and_mcp_agent_demo.py, lines 218-233)
-- ---------------------------------------------------------------------------

/-- One item of a model response `output` list as probed with `getattr`:
`none` models a missing attribute or an attribute holding `None`. -/
structure OutputItem where
  type : String
  call_id : Option String
  idAttr : Option String
  name : Option String
  arguments : Option String
deriving DecidableEq

/-- A response of the inference service: the continuation handle `id`, the
ordered output items, and the `output_text` accessor. -/
structure ModelResponse where
  id : String
  output : List OutputItem
  output_text : String
deriving DecidableEq

/-- One well-formed tool-call request: the dict
`\x7b"id": ..., "name": ..., "arguments": ...\x7d` built by
`_extract_function_calls` and kept by its final filter. -/
structure FnCall where
  id : String
  name : String
  arguments : String
deriving DecidableEq

/-- `BashAndMcpAgent._extract_function_calls(resp)`: collect the
`function_call` items, taking `call_id or id` as the identifier and
`arguments or ""` as the raw arguments, and keep those whose identifier is
truthy and whose name is not `None`. -/
def extractFunctionCalls (resp : ModelResponse) : List FnCall :=
  resp.output.filterMap fun it =>
    if it.type == "function_call" then
      match pyOrStr it.call_id it.idAttr with
      | none => none
      | some i =>
          if i == "" then none
          else
            match it.name with
            | some nm => some ⟨i, nm, it.arguments.getD ""⟩
            | none => none
    else none

-- ---------------------------------------------------------------------------
-- The agent loop `BashAndMcpAgent.run`
-- (src/07_responses_api_bash_and_mcp_agent_demo.py, lines 237-376)
-- ---------------------------------------------------------------------------

/-- One item of a request `input` list. -/
inductive InputItem where
  | message (role : String) (content : String)
  | functionCallOutput (call_id : String) (output : String)
deriving DecidableEq

/-- One `client.responses.create(...)` request as built by
`BashAndMcpAgent._send_to_model`: the input items, the
`previous_response_id` (absent on the first call of a conversation, in
which case `store=True` is sent instead), and whether tools are exposed
(`tools=[BASH_TOOL] + CONTEXT7_MCP_TOOLS, tool_choice="auto"` versus
`tools=[], tool_choice="none"`; the constant tool schema list and the
constant reasoning-effort setting are not modelled). -/
structure Request where
  input : List InputItem
  previous_response_id : Option String
  store : Bool
  toolsExposed : Bool
deriving DecidableEq

/-- Externally observable side effects of one run, in order. -/
inductive Event where
  /-- A request sent to the inference service. -/
  | apiCall (req : Request)
  /-- A `subprocess.run` invocation performed by `utils.run_bash`. -/
  | bashProcess (command : String) (timeoutSec : Int) (effect : SubprocessEffect)
  /-- A remote MCP tool invocation performed by `Context7Dispatcher.call`. -/
  | mcpInvoke (tool : String) (args : Json)
deriving DecidableEq

/-- The deterministic environment oracle standing for everything outside the
loop: the inference service (indexed by how many requests were made so
far), the behavior of shell commands, the remote MCP server, the
interactive user at the confirmation prompt (indexed by how many prompts
were shown so far), and `json.loads` (`none` models a raised decode
error). -/
structure Env where
  create : Nat → Request → ModelResponse
  bashOutcome : String → Int → BashOutcome
  mcp : String → Json → String
  userReply : Nat → String
  jloads : String → Option Json

/-- Constructor arguments of `BashAndMcpAgent`, together with the reverse
index `REVERSE_INDEX` that the script loads from
`context7_reverse_index.json` at import time (modelled as a parameter; the
entries written by the bridge always carry both keys, so a present entry is
never falsy). -/
structure AgentConfig where
  max_steps : Nat
  confirm : Bool
  ridx : List (String × ReverseEntry)

/-- The mutable state of a `BashAndMcpAgent` instance, extended with the
event trace and the environment-oracle counters. -/
structure LoopSt where
  response_id : Option String
  step_count : Nat
  tool_calls : Nat
  nCreates : Nat
  nPrompts : Nat
  trace : List Event

/-- The state established by `BashAndMcpAgent.__init__`. -/
def initState : LoopSt :=
  { response_id := none, step_count := 0, tool_calls := 0, nCreates := 0,
    nPrompts := 0, trace := [] }

/-- `BashAndMcpAgent._send_to_model(input_items, expose_tools)`: builds the
request (with `previous_response_id` when a handle is stored, `store=True`
otherwise), calls the service, and unconditionally stores the returned
handle. -/
def sendToModel (env : Env) (st : LoopSt) (items : List InputItem)
    (expose : Bool) : ModelResponse × LoopSt :=
  let req : Request :=
    { input := items, previous_response_id := st.response_id,
      store := st.response_id.isNone, toolsExposed := expose }
  let resp := env.create st.nCreates req
  (resp,
    { st with
        response_id := some resp.id
        nCreates := st.nCreates + 1
        trace := st.trace ++ [Event.apiCall req] })

/-- `args_obj.get(k, default)`: raises `AttributeError` when the decoded
arguments value is not a dict. -/
def pyDictGet (v : Json) (k : String) (d : Json) : Except RunErr Json :=
  match v with
  | .obj fields => .ok (objGet fields.toList k d)
  | _ => .error (.attrError "get")

/-- Python `int(v)` on a JSON-like value (fractional floats do not arise
here; `int` of a string permits surrounding whitespace and a sign). -/
def pyToInt (v : Json) : Except RunErr Int :=
  match v with
  | .num n => .ok n
  | .bool b => .ok (if b then 1 else 0)
  | .str s =>
      match (pyStrip s).toInt? with
      | some n => .ok n
      | none => .error (.castError "int")
  | _ => .error (.castError "int")

/-- A value handed to `subprocess` as the command must be a string. -/
def expectStr (what : String) (v : Json) : Except RunErr String :=
  match v with
  | .str s => .ok s
  | _ => .error (.castError what)

/-- The unknown-tool observation text:
`"Unknown tool: " + fn_name + ". Available: " + ", ".join(REVERSE_INDEX.keys())`. -/
def unknownToolMsg (name : String) (ridx : List (String × ReverseEntry)) : String :=
  "Unknown tool: " ++ name ++ ". Available: " ++
    String.intercalate ", " (ridx.map Prod.fst)

/-- The routing performed by the body of the tool loop in
`BashAndMcpAgent.run` (lines 278-332, minus the confirmation gate) once the
arguments value `args_obj` is in hand: route to `utils.run_bash` for the
local `bash` tool, and otherwise resolve the name in the reverse index,
answering with the unknown-tool text when resolution fails and with the
dispatched MCP output otherwise.  Returns the observation text (or the
propagating exception) together with the external events performed. -/
def dispatchResolved (env : Env) (cfg : AgentConfig) (fnName : String)
    (argsObj : Json) : Except RunErr String × List Event :=
  if fnName == "bash" then
    match pyDictGet argsObj "command" (Json.str "") with
    | .error e => (.error e, [])
    | .ok cmdJ =>
        match expectStr "command" cmdJ with
        | .error e => (.error e, [])
        | .ok command =>
            match pyDictGet argsObj "timeout_sec" (Json.num 120) with
            | .error e => (.error e, [])
            | .ok tJ =>
                match pyToInt tJ with
                | .error e => (.error e, [])
                | .ok tsec =>
                    let outcome := env.bashOutcome command tsec
                    let ev := Event.bashProcess command tsec (subprocessRun outcome)
                    match runBash outcome command with
                    | .ok r => (.ok (dumpsDefault (cmdResultJson r)), [ev])
                    | .error e => (.error e, [ev])
  else
    match alistLookup cfg.ridx fnName with
    | none => (.ok (unknownToolMsg fnName cfg.ridx), [])
    | some entry =>
        (.ok (env.mcp entry.mcp_name argsObj), [Event.mcpInvoke entry.mcp_name argsObj])

/-- The per-request handling in `BashAndMcpAgent.run`: best-effort JSON
decoding of the raw argument string with silent fallback to an empty dict
(`try: json.loads(...) except Exception: args_obj = \x7b\x7d`; the raw
arguments are always a string here, so the non-string branch of the source
is unreachable), followed by the name-based routing. -/
def dispatchCall (env : Env) (cfg : AgentConfig) (c : FnCall) :
    Except RunErr String × List Event :=
  dispatchResolved env cfg c.name ((env.jloads c.arguments).getD (mkObj []))

/-- How one tool batch ends: a complete list of `function_call_output`
items, or a decline at the confirmation prompt (in which case a corrective
nudge has already been sent and its response is in hand). -/
inductive BatchOutcome where
  | outputs (outs : List InputItem)
  | declined (resp : ModelResponse)
deriving DecidableEq

/-- The `for c in calls` loop of `BashAndMcpAgent.run`: increments
`tool_calls` per request (before the confirmation gate, as in the source),
optionally gates on the interactive prompt (a reply whose
stripped-and-lowered form is `"n"` declines: the nudge is sent immediately
and the batch is abandoned), dispatches, and accumulates one
`function_call_output` per executed request, preserving order and
`call_id`. -/
def execCalls (env : Env) (cfg : AgentConfig) :
    List FnCall → List InputItem → LoopSt → Except RunErr BatchOutcome × LoopSt
  | [], acc, st => (.ok (.outputs acc), st)
  | c :: rest, acc, st =>
      let st1 := { st with tool_calls := st.tool_calls + 1 }
      if cfg.confirm && pyLower (pyStrip (env.userReply st1.nPrompts)) == "n" then
        let st2 := { st1 with nPrompts := st1.nPrompts + 1 }
        let (resp, st3) :=
          sendToModel env st2
            [InputItem.message "user" "Declined. Try another approach."] true
        (.ok (.declined resp), st3)
      else
        let st2 := if cfg.confirm then { st1 with nPrompts := st1.nPrompts + 1 } else st1
        let (res, evs) := dispatchCall env cfg c
        let st3 := { st2 with trace := st2.trace ++ evs }
        match res with
        | .error e => (.error e, st3)
        | .ok out =>
            execCalls env cfg rest (acc ++ [InputItem.functionCallOutput c.id out]) st3

/-- The `for step in range(1, max_steps + 1)` loop of `BashAndMcpAgent.run`:
sets `step_count`, extracts the tool-call requests of the current response,
breaks with `true` when there are none (the DONE signal), and otherwise
executes the batch and continues — with the nudge response after a decline,
or with the response to the submitted outputs otherwise.  Returns `false`
when the budget is exhausted (the `for`-`else` branch). -/
def runLoop (env : Env) (cfg : AgentConfig) :
    Nat → Nat → ModelResponse → LoopSt → Except RunErr Bool × LoopSt
  | 0, _, _, st => (.ok false, st)
  | n + 1, step, resp, st =>
      let st0 := { st with step_count := step }
      match extractFunctionCalls resp with
      | [] => (.ok true, st0)
      | c :: rest =>
          match execCalls env cfg (c :: rest) [] st0 with
          | (.error e, st1) => (.error e, st1)
          | (.ok (.declined resp2), st1) => runLoop env cfg n (step + 1) resp2 st1
          | (.ok (.outputs outs), st1) =>
              let (resp2, st2) := sendToModel env st1 outs true
              runLoop env cfg n (step + 1) resp2 st2

/-- The system prompt of the agent. -/
def AGENT_SYSTEM_PROMPT : String :=
  "You work in steps. At each step:\n- Return at most ONE tool call (bash or an MCP tool).\n- Prefer non-interactive bash commands and HEREDOCs for edits.\n- After observing results, decide the next step.\n- Stop proposing actions when the task is accomplished; then return plain text.\n"

/-- The system prompt of the final summary turn. -/
def SUMMARY_SYSTEM_PROMPT : String := "Summarize the overall results for the user."

/-- The user message of the final summary turn. -/
def summaryUserMsg : String :=
  "Summarize the overall results as bullet points for the user."

/-- The input items of the first turn of `run`. -/
def initialItems (task : String) : List InputItem :=
  [InputItem.message "system" AGENT_SYSTEM_PROMPT,
   InputItem.message "user" (pyStrip task)]

/-- The input items of the final summary turn. -/
def summaryItems : List InputItem :=
  [InputItem.message "system" SUMMARY_SYSTEM_PROMPT,
   InputItem.message "user" summaryUserMsg]

/-- `BashAndMcpAgent.run(task)`: first turn with system prompt and stripped
task text and tools exposed; then the step loop; on exhaustion the step-limit
message is returned with no summary turn; on the DONE signal one summary
turn is sent with tools disabled and its stripped `output_text` is
returned.  `run` does not reset the instance state: it continues from
whatever `st0` the constructor or a previous run left behind. -/
def BashAndMcpAgent.run (env : Env) (cfg : AgentConfig) (st0 : LoopSt)
    (task : String) : Except RunErr String × LoopSt :=
  let (resp, st) :=
    sendToModel env st0
      [InputItem.message "system" AGENT_SYSTEM_PROMPT,
       InputItem.message "user" (pyStrip task)] true
  match runLoop env cfg cfg.max_steps 1 resp st with
  | (.error e, st1) => (.error e, st1)
  | (.ok false, st1) => (.ok "Stopped: step limit reached.", st1)
  | (.ok true, st1) =>
      let (summary, st2) :=
        sendToModel env st1
          [InputItem.message "system" SUMMARY_SYSTEM_PROMPT,
           InputItem.message "user" summaryUserMsg] false
      (.ok (pyStrip summary.output_text), st2)

/-- The requests sent to the inference service, in order, as recorded in a
trace. -/
def requestsOf (trace : List Event) : List Request :=
  trace.filterMap fun e =>
    match e with
    | .apiCall r => some r
    | _ => none

/-- The observation text produced for one tool-call request when its
dispatch succeeds (the value submitted in its `function_call_output`
item). -/
def dispatchText (env : Env) (cfg : AgentConfig) (c : FnCall) : String :=
  match (dispatchCall env cfg c).1 with
  | .ok s => s
  | .error _ => ""

/-- The request built by `BashAndMcpAgent._send_to_model` from a stored
state, an input list and the tools flag. -/
def sendReq (st : LoopSt) (items : List InputItem) (expose : Bool) : Request :=
  { input := items
    previous_response_id := st.response_id
    store := st.response_id.isNone
    toolsExposed := expose }

/-- The corrective request sent immediately after a decline at the
confirmation prompt. -/
def nudgeReq (st : LoopSt) : Request :=
  { input := [InputItem.message "user" "Declined. Try another approach."]
    previous_response_id := st.response_id
    store := st.response_id.isNone
    toolsExposed := true }

/-- Correct threading of the continuation handle through a request list:
given the handle stored before the first request (and the index of the
next `create` call), every request carries the stored handle as
`previous_response_id` (with `store` set exactly when no handle is
stored), and the handle returned by each response supersedes the stored
one for the next request. -/
def chainFrom (env : Env) : Nat → Option String → List Request → Prop
  | _, _, [] => True
  | k, rid, r :: rest =>
      r.previous_response_id = rid ∧ r.store = rid.isNone ∧
      chainFrom env (k + 1) (some (env.create k r).id) rest

/-- The handle stored after a request list has been sent and answered. -/
def chainNext (env : Env) : Nat → Option String → List Request → Option String
  | _, rid, [] => rid
  | k, _, r :: rest => chainNext env (k + 1) (some (env.create k r).id) rest

/-- Full-batch answering along a request list: each request of the list
answers exactly the tool-call requests of the previous response, in order,
one `function_call_output` per request with the matching `call_id`, and is
only sent because that batch was nonempty. -/
def batchChain (env : Env) (cfg : AgentConfig) : Nat → ModelResponse → List Request → Prop
  | _, _, [] => True
  | k, resp, r :: rest =>
      r.input = (extractFunctionCalls resp).map
        (fun c => InputItem.functionCallOutput c.id (dispatchText env cfg c)) ∧
      extractFunctionCalls resp ≠ [] ∧
      batchChain env cfg (k + 1) (env.create k r) rest

-- ---------------------------------------------------------------------------
-- Definitions written from the words of the specification, for comparison
-- with the embeddings above
-- ---------------------------------------------------------------------------

/-- Modelled from the spec (§4.2 name sanitization): lower-case the raw
name, replace every character outside `[a-z0-9_]` with an underscore,
collapse runs of underscores, trim leading/trailing underscores, prefix a
fallback token when the result is empty or does not start with a letter or
underscore (the spec leaves the token open; it is instantiated with the
token the code uses, `"tool_"` around the placeholder `"mcp"` for an empty
remainder), prepend the server label followed by a double underscore, and
truncate to 64 characters.  Unlike `sanitizeFunctionName`, no initial
whitespace strip is performed, and the label is prepended unconditionally. -/
def specSanitizeFunctionName (label : String) (name : String) : String :=
  String.mk ((label.data ++ "__".data ++ sanitizeBody name.data).take 64)

/-- Modelled from the spec (§4.3, flattening algorithm) and from the claim:
a part carrying a plain-text field contributes that text; otherwise a part
carrying a structured-data field (the `json` field, or else the `data`
field, judged by presence) contributes its indented non-ASCII-preserving
JSON serialization, falling back to the generic string rendering when
serialization fails; otherwise the part contributes its generic string
rendering. -/
def specFlattenPart (c : ContentPart) : String :=
  match c.text with
  | some t => t
  | none =>
      match (match c.jsonAttr with | some v => some v | none => c.dataAttr) with
      | some v =>
          match v.dumpsIndented with
          | some s => s
          | none => v.pyStr
      | none => c.rep

/-- Modelled from the spec: the fragments are joined with newline
separators, and a result with no recognized parts flattens to the empty
string. -/
def specFlattenResult (content : Option (List ContentPart)) : String :=
  String.intercalate "\n" ((content.getD []).map specFlattenPart)

/-- The flattening algorithm as amended to match the code: the
structured-data field consulted is the `json` field when it is truthy and
the `data` field otherwise, so a part whose `json` field holds a falsy
value (for example an empty object) and whose `data` field is absent falls
through to the generic string rendering. -/
def amendedFlattenPart (c : ContentPart) : String :=
  match c.text with
  | some t => t
  | none =>
      match
        (match c.jsonAttr with
         | some v => if v.truthy then some v else c.dataAttr
         | none => c.dataAttr) with
      | some v =>
          match v.dumpsIndented with
          | some s => s
          | none => v.pyStr
      | none => c.rep

/-- The amended flattening of a whole result. -/
def amendedFlattenResult (content : Option (List ContentPart)) : String :=
  String.intercalate "\n" ((content.getD []).map amendedFlattenPart)

/-- Full match against the pattern `[A-Za-z_][A-Za-z0-9_]*`: non-empty, the
first character is a letter or underscore, and every character is a letter,
digit or underscore. -/
def isWordChar (c : Char) : Bool :=
  ('a' ≤ c && c ≤ 'z') || ('A' ≤ c && c ≤ 'Z') || ('0' ≤ c && c ≤ '9') || c = '_'

/-- Whether a string matches `[A-Za-z_][A-Za-z0-9_]*` in full. -/
def matchesIdentPattern (s : String) : Bool :=
  match s.data with
  | [] => false
  | c :: t => startsWithLetterOrUnderscore (c :: t) && (c :: t).all isWordChar

-- ---------------------------------------------------------------------------
-- Concrete inputs used by witnesses and counterexamples
-- ---------------------------------------------------------------------------

/-- A descriptor whose raw tool name is `"a-b"`. -/
def descDashName : McpToolDesc := ⟨some "a-b", none, none, none, none, none⟩

/-- A descriptor whose raw tool name is `"a_b"`; it collides with
`descDashName` after sanitization. -/
def descUnderscoreName : McpToolDesc := ⟨some "a_b", none, none, none, none, none⟩

/-- A content part whose `json` attribute holds an empty (falsy) object and
whose `data` attribute is absent. -/
def partFalsyJson : ContentPart :=
  ⟨none, some (PyVal.jsonVal (mkObj [])), none, "<part object>"⟩

/-- A model response with no output items (the DONE signal), with handle
`"r" ++ toString n`. -/
def respNoCalls (n : Nat) : ModelResponse := ⟨"r" ++ toString n, [], "all done"⟩

/-- A well-formed `function_call` output item. -/
def mkFnCallItem (cid nm args : String) : OutputItem :=
  ⟨"function_call", some cid, none, some nm, some args⟩

/-- An environment whose model requests one `bash` call on the first turn
and stops afterwards, and whose interactive user declines every
confirmation prompt. -/
def envDecline : Env :=
  { create := fun n _ =>
      if n == 0 then ⟨"r0", [mkFnCallItem "c1" "bash" "\x7b\x7d"], ""⟩
      else respNoCalls n
    bashOutcome := fun _ _ => .completed 0 "" ""
    mcp := fun _ _ => "mcp output"
    userReply := fun _ => "n"
    jloads := fun s => if s == "\x7b\x7d" then some (mkObj []) else none }

/-- The agent configuration used with `envDecline`: the confirmation gate is
enabled. -/
def cfgDecline : AgentConfig := ⟨3, true, []⟩

/-- An environment whose model requests one `bash` call and one MCP call in
the same first turn and stops afterwards. -/
def envBatch : Env :=
  { create := fun n _ =>
      if n == 0 then
        ⟨"r0",
         [mkFnCallItem "c1" "bash" "\x7b\"command\": \"echo hi\"\x7d",
          mkFnCallItem "c2" "docs__search" "\x7b\x7d"], ""⟩
      else respNoCalls n
    bashOutcome := fun _ _ => .completed 0 "hi\n" ""
    mcp := fun _ _ => "docs result"
    userReply := fun _ => ""
    jloads := fun s =>
      if s == "\x7b\"command\": \"echo hi\"\x7d" then
        some (mkObj [("command", Json.str "echo hi")])
      else if s == "\x7b\x7d" then some (mkObj []) else none }

/-- The agent configuration used with `envBatch`: no confirmation gate, one
bridged tool. -/
def cfgBatch : AgentConfig :=
  ⟨5, false, [("docs__search", ⟨"context7", "resolve-library-id"⟩)]⟩

/-- An environment whose model requests a `bash` command that exceeds its
timeout. -/
def envTimeout : Env :=
  { create := fun n _ =>
      if n == 0 then
        ⟨"r0", [mkFnCallItem "c1" "bash" "\x7b\"command\": \"sleep 999\"\x7d"], ""⟩
      else respNoCalls n
    bashOutcome := fun _ _ => .timedOut
    mcp := fun _ _ => ""
    userReply := fun _ => ""
    jloads := fun s =>
      if s == "\x7b\"command\": \"sleep 999\"\x7d" then
        some (mkObj [("command", Json.str "sleep 999")])
      else none }

/-- The agent configuration used with `envTimeout`. -/
def cfgTimeout : AgentConfig := ⟨5, false, []⟩

/-- An environment whose model requests a tool name that is neither `bash`
nor present in the reverse index (the spec scenario:
`docs__get_docs` requested while only `docs__search` is bridged). -/
def envUnknown : Env :=
  { create := fun n _ =>
      if n == 0 then
        ⟨"r0", [mkFnCallItem "c1" "docs__get_docs" "\x7b\x7d"], ""⟩
      else respNoCalls n
    bashOutcome := fun _ _ => .completed 0 "" ""
    mcp := fun _ _ => "search output"
    userReply := fun _ => ""
    jloads := fun s => if s == "\x7b\x7d" then some (mkObj []) else none }

/-- The agent configuration used with `envUnknown`: the reverse index
contains only `docs__search`. -/
def cfgUnknown : AgentConfig :=
  ⟨5, false, [("docs__search", ⟨"context7", "search"⟩)]⟩

/-- An environment whose `json.loads` raises on every input. -/
def envBadJson : Env :=
  { create := fun n _ => respNoCalls n
    bashOutcome := fun _ _ => .completed 0 "" ""
    mcp := fun _ _ => "mcp output"
    userReply := fun _ => ""
    jloads := fun _ => none }

/-- An environment whose model never requests a tool call. -/
def envPlain : Env :=
  { create := fun n _ => respNoCalls n
    bashOutcome := fun _ _ => .completed 0 "" ""
    mcp := fun _ _ => ""
    userReply := fun _ => ""
    jloads := fun _ => none }

/-- A minimal configuration for `envPlain`. -/
def cfgPlain : AgentConfig := ⟨3, false, []⟩

-- ===========================================================================
-- Lemmas and claim theorems
-- ===========================================================================

lemma alistLookup_cons {β : Type} (p : String × β) (t : List (String × β))
    (k : String) :
    alistLookup (p :: t) k = if p.1 = k then some p.2 else alistLookup t k := by
  rcases p with ⟨k2, v⟩
  by_cases h : k2 = k <;> simp [alistLookup, h]

lemma alistErase_cons {β : Type} (p : String × β) (t : List (String × β))
    (k : String) :
    alistErase (p :: t) k =
      if p.1 = k then alistErase t k else p :: alistErase t k := by
  by_cases h : p.1 = k <;> simp [alistErase, h]

lemma alistHasKey_cons {β : Type} (p : String × β) (t : List (String × β))
    (k : String) :
    alistHasKey (p :: t) k = (if p.1 = k then true else alistHasKey t k) := by
  by_cases h : p.1 = k <;> simp [alistHasKey, h]

lemma alistLookup_erase_self {β : Type} (l : List (String × β)) (k : String) :
    alistLookup (alistErase l k) k = none := by
  induction l with
  | nil => rfl
  | cons p t ih =>
      rw [alistErase_cons]
      by_cases h : p.1 = k
      · rw [if_pos h]; exact ih
      · rw [if_neg h, alistLookup_cons, if_neg h]; exact ih

lemma alistLookup_erase_ne {β : Type} (l : List (String × β)) (k k2 : String)
    (h : k2 ≠ k) : alistLookup (alistErase l k) k2 = alistLookup l k2 := by
  induction l with
  | nil => rfl
  | cons p t ih =>
      rw [alistErase_cons]
      by_cases hp : p.1 = k
      · have hpk : p.1 ≠ k2 := fun hx => h (by rw [← hx, hp])
        rw [if_pos hp, alistLookup_cons, if_neg hpk]; exact ih
      · rw [if_neg hp, alistLookup_cons, alistLookup_cons]
        by_cases hq : p.1 = k2
        · rw [if_pos hq, if_pos hq]
        · rw [if_neg hq, if_neg hq]; exact ih

lemma alistHasKey_erase {β : Type} (l : List (String × β)) (k k2 : String)
    (h : k2 ≠ k) : alistHasKey (alistErase l k) k2 = alistHasKey l k2 := by
  induction l with
  | nil => rfl
  | cons p t ih =>
      rw [alistErase_cons]
      by_cases hp : p.1 = k
      · have hpk : p.1 ≠ k2 := fun hx => h (by rw [← hx, hp])
        rw [if_pos hp, alistHasKey_cons, if_neg hpk]; exact ih
      · rw [if_neg hp, alistHasKey_cons, alistHasKey_cons]
        by_cases hq : p.1 = k2
        · rw [if_pos hq, if_pos hq]
        · rw [if_neg hq, if_neg hq]; exact ih

lemma alistLookup_append {β : Type} (l m : List (String × β)) (k : String) :
    alistLookup (l ++ m) k =
      (match alistLookup l k with
       | some v => some v
       | none => alistLookup m k) := by
  induction l with
  | nil => simp [alistLookup]
  | cons p t ih =>
      rw [List.cons_append, alistLookup_cons, alistLookup_cons]
      by_cases hp : p.1 = k
      · rw [if_pos hp, if_pos hp]
      · rw [if_neg hp, if_neg hp]; exact ih

lemma alistHasKey_iff_lookup_isSome {β : Type} (l : List (String × β)) (k : String) :
    alistHasKey l k = true ↔ (alistLookup l k).isSome := by
  induction l with
  | nil => simp [alistHasKey, alistLookup]
  | cons p t ih =>
      rw [alistHasKey_cons, alistLookup_cons]
      by_cases hp : p.1 = k
      · simp [hp]
      · simp only [if_neg hp]; exact ih

lemma alistLookup_of_not_hasKey {β : Type} (l : List (String × β)) (k : String)
    (h : alistHasKey l k = false) : alistLookup l k = none := by
  cases hl : alistLookup l k with
  | none => rfl
  | some v =>
      exfalso
      have := (alistHasKey_iff_lookup_isSome l k).2 (by simp [hl])
      simp [this] at h

lemma alistLookup_singleton {β : Type} (k k2 : String) (v : β) :
    alistLookup [(k, v)] k2 = if k = k2 then some v else none := by
  by_cases h : k = k2 <;> simp [alistLookup, h]

/-- Claim C6: `_normalize_schema` returns exactly the default object schema
for every non-dict input, and for a dict input returns a (deep) copy whose
`$schema` key is removed, whose other non-defaulted keys look up unchanged,
whose `type` defaults to `"object"` when absent, and whose `properties`
defaults to an empty dict exactly when the (possibly defaulted) type is
`"object"` and no properties were supplied.  The embedding is a pure
function, which is the meaning of the `copy.deepcopy` guarantee that the
callers original descriptor is never mutated. -/
theorem normalize_schema_spec (j : Json) :
    (j.isObj = false →
      normalizeSchema j =
        mkObj [("type", Json.str "object"), ("properties", mkObj [])]) ∧
    (∀ fields, j = Json.obj fields →
      ∃ out, normalizeSchema j = Json.obj (JsonFields.ofList out) ∧
        alistLookup out "$schema" = none ∧
        (∀ k, k ≠ "$schema" → k ≠ "type" → k ≠ "properties" →
          alistLookup out k = alistLookup fields.toList k) ∧
        alistLookup out "type" =
          some ((alistLookup fields.toList "type").getD (Json.str "object")) ∧
        alistLookup out "properties" =
          (match alistLookup fields.toList "properties" with
           | some v => some v
           | none =>
               if (alistLookup fields.toList "type").getD (Json.str "object") =
                   Json.str "object" then
                 some (mkObj [])
               else none)) := by
  constructor
  · intro h
    cases j <;> simp [Json.isObj] at h <;> rfl
  · intro fields hj
    subst hj
    simp only [normalizeSchema]
    set f1 := alistErase fields.toList "$schema" with hf1
    have hty : alistLookup f1 "type" = alistLookup fields.toList "type" :=
      alistLookup_erase_ne _ _ _ (by decide)
    have hprops : alistLookup f1 "properties" = alistLookup fields.toList "properties" :=
      alistLookup_erase_ne _ _ _ (by decide)
    have hschema : alistLookup f1 "$schema" = none := alistLookup_erase_self _ _
    by_cases ht : alistHasKey f1 "type"
    all_goals simp only [ht, if_true, if_false, Bool.false_eq_true]
    · -- "type" already present
      have htySome : ∃ v, alistLookup fields.toList "type" = some v := by
        have := (alistHasKey_iff_lookup_isSome f1 "type").1 ht
        rw [hty] at this
        exact Option.isSome_iff_exists.1 this
      obtain ⟨tv, htv⟩ := htySome
      by_cases hp : objGet f1 "type" Json.null = Json.str "object" ∧
          alistHasKey f1 "properties" = false
      · -- properties defaulted
        have hcond : (objGet f1 "type" Json.null = Json.str "object" &&
            !alistHasKey f1 "properties") = true := by
          simp [hp.1, hp.2]
        rw [if_pos hcond]
        refine ⟨_, rfl, ?_, ?_, ?_, ?_⟩
        · rw [alistLookup_append, hschema]
          rw [alistLookup_singleton, if_neg (by decide)]
        · intro k h1 h2 h3
          have h4 := alistLookup_erase_ne fields.toList "$schema" k h1
          rw [alistLookup_append]
          cases hk : alistLookup f1 k with
          | some v => rw [hk] at h4; exact h4
          | none =>
              rw [hk] at h4
              rw [alistLookup_singleton, if_neg (fun hx => h3 hx.symm)]
              exact h4
        · rw [alistLookup_append]
          simp [hty, htv, alistLookup]
        · have hnone : alistLookup fields.toList "properties" = none := by
            rw [← hprops]
            exact alistLookup_of_not_hasKey _ _ (by simpa using hp.2)
          have htyv : tv = Json.str "object" := by
            have := hp.1
            simp [objGet, hty, htv] at this
            exact this
          rw [alistLookup_append]
          have hf1p : alistLookup f1 "properties" = none := by rw [hprops, hnone]
          simp [hf1p, hnone, htyv, htv, alistLookup]
      · -- properties untouched
        have hcond : (objGet f1 "type" Json.null = Json.str "object" &&
            !alistHasKey f1 "properties") = false := by
          rcases not_and_or.1 hp with h | h
          · simp [h]
          · have : alistHasKey f1 "properties" = true := by
              cases hv : alistHasKey f1 "properties"
              · exact absurd hv h
              · rfl
            simp [this]
        rw [if_neg (by simp [hcond])]
        refine ⟨_, rfl, hschema, ?_, ?_, ?_⟩
        · intro k h1 _ _
          exact alistLookup_erase_ne fields.toList "$schema" k h1
        · rw [hty, htv]; rfl
        · cases hkp : alistHasKey f1 "properties" with
          | true =>
              have := (alistHasKey_iff_lookup_isSome f1 "properties").1 hkp
              obtain ⟨pv, hpv⟩ := Option.isSome_iff_exists.1 this
              have : alistLookup fields.toList "properties" = some pv := by
                rw [← hprops]; exact hpv
              simp [hpv, this]
          | false =>
              have hno : alistLookup fields.toList "properties" = none := by
                rw [← hprops]
                exact alistLookup_of_not_hasKey _ _ hkp
              have htyObj : objGet f1 "type" Json.null ≠ Json.str "object" := by
                intro hcontr
                exact hp ⟨hcontr, hkp⟩
              have : tv ≠ Json.str "object" := by
                intro hcontr
                apply htyObj
                simp [objGet, hty, htv, hcontr]
              simp [hprops, hno, htv, this]
    · -- "type" absent: defaulted to "object", properties always defaulted
      have hf1ty : alistLookup f1 "type" = none := by
        cases hv : alistLookup f1 "type" with
        | none => rfl
        | some v =>
            exfalso
            have := (alistHasKey_iff_lookup_isSome f1 "type").2 (by simp [hv])
            simp [this] at ht
      have hftyNone : alistLookup fields.toList "type" = none := by rw [← hty]; exact hf1ty
      set f2 := f1 ++ [("type", Json.str "object")] with hf2
      have hf2ty : alistLookup f2 "type" = some (Json.str "object") := by
        rw [hf2, alistLookup_append, hf1ty]
        rfl
      have hf2props : alistLookup f2 "properties" = alistLookup fields.toList "properties" := by
        rw [hf2, alistLookup_append, hprops]
        cases hv : alistLookup fields.toList "properties" <;> simp [alistLookup]
      have hgety : objGet f2 "type" Json.null = Json.str "object" := by
        simp [objGet, hf2ty]

      by_cases hkp : alistHasKey f2 "properties"
      · have hcond : (objGet f2 "type" Json.null = Json.str "object" &&
            !alistHasKey f2 "properties") = false := by simp [hkp]
        rw [if_neg (by simp [hcond])]
        have := (alistHasKey_iff_lookup_isSome f2 "properties").1 hkp
        obtain ⟨pv, hpv⟩ := Option.isSome_iff_exists.1 this
        refine ⟨_, rfl, ?_, ?_, ?_, ?_⟩
        · rw [hf2, alistLookup_append, hschema]; rfl
        · intro k h1 h2 h3
          rw [hf2, alistLookup_append, alistLookup_erase_ne fields.toList "$schema" k h1]
          cases hv : alistLookup fields.toList k with
          | some v => rfl
          | none => rw [alistLookup_singleton, if_neg (fun hx => h2 hx.symm)]
        · simp [hf2ty, hftyNone]
        · rw [hf2props] at hpv
          simp [hf2props, hpv]
      · have hcond : (objGet f2 "type" Json.null = Json.str "object" &&
            !alistHasKey f2 "properties") = true := by simp [hgety, hkp]
        rw [if_pos hcond]
        have hnone : alistLookup fields.toList "properties" = none := by
          rw [← hf2props]
          exact alistLookup_of_not_hasKey _ _ (Bool.not_eq_true _ ▸ eq_false_of_ne_true hkp)
        refine ⟨_, rfl, ?_, ?_, ?_, ?_⟩
        · rw [alistLookup_append, hf2, alistLookup_append, hschema]
          rfl
        · intro k h1 h2 h3
          rw [alistLookup_append, hf2, alistLookup_append,
            alistLookup_erase_ne fields.toList "$schema" k h1]
          cases hv : alistLookup fields.toList k with
          | some v => rfl
          | none =>
              rw [alistLookup_singleton, if_neg (fun hx => h2 hx.symm)]
              rw [alistLookup_singleton, if_neg (fun hx => h3 hx.symm)]
        · rw [alistLookup_append, hf2ty]
          simp [hftyNone]
        · rw [alistLookup_append]
          have : alistLookup f2 "properties" = none := by rw [hf2props, hnone]
          simp [this, hnone, hftyNone, alistLookup]

/-- Witness for C6 at a concrete dict input carrying a `$schema` key and no
`type`. -/
theorem normalize_schema_spec_witness :
    ∃ out,
      normalizeSchema (mkObj [("$schema", Json.str "http://json-schema.org"),
        ("properties", mkObj [("q", Json.str "s")])]) =
        Json.obj (JsonFields.ofList out) ∧
      alistLookup out "$schema" = none ∧
      (∀ k, k ≠ "$schema" → k ≠ "type" → k ≠ "properties" →
        alistLookup out k =
          alistLookup (JsonFields.ofList [("$schema", Json.str "http://json-schema.org"),
            ("properties", mkObj [("q", Json.str "s")])]).toList k) ∧
      alistLookup out "type" = some (Json.str "object") ∧
      alistLookup out "properties" = some (mkObj [("q", Json.str "s")]) :=
  (normalize_schema_spec _).2 _ rfl

lemma flattenPart_eq_amended (c : ContentPart) :
    flattenPart c = amendedFlattenPart c := by
  rcases c with ⟨t, j, d, r⟩
  cases t with
  | some s => rfl
  | none =>
      cases j with
      | none => rfl
      | some v => rfl

/-- Claim C4 (amended): `_flatten_mcp_tool_result` contributes a part's
`text` attribute whenever that attribute is present (`if text is not
None`), even when it is the empty string; otherwise it forms
`obj = json or data` under Python truthiness — the `json` attribute when
present and truthy, else the `data` attribute — and serializes `obj` as
indented non-ASCII-preserving JSON whenever `obj` is present (`if obj is
not None`), even when `obj` is falsy (for example a present empty `data`
object); only when `obj` is `None` — both attributes absent, or `json`
falsy with `data` absent — does the part contribute its generic string
rendering `str(part)`.  A result with no recognized parts flattens to the
empty string. -/
theorem flatten_matches_amended_spec (content : Option (List ContentPart)) :
    flattenMcpToolResult content = amendedFlattenResult content ∧
    flattenMcpToolResult none = "" := by
  have hfun : flattenPart = amendedFlattenPart := funext flattenPart_eq_amended
  refine ⟨?_, rfl⟩
  cases content with
  | none => rfl
  | some l =>
      cases l with
      | nil => rfl
      | cons a t => simp [flattenMcpToolResult, amendedFlattenResult, hfun]

/-- Counterexample to claim C4 as stated: a part whose `json` attribute
holds an empty object (a structured-data field that is present but falsy)
and whose `data` attribute is absent is rendered with `str(c)` by the code,
while the presence-based spec algorithm serializes the empty object. -/
theorem flatten_spec_counterexample :
    flattenMcpToolResult (some [partFalsyJson]) = "<part object>" ∧
    specFlattenResult (some [partFalsyJson]) = "\x7b\x7d" ∧
    flattenMcpToolResult (some [partFalsyJson]) ≠
      specFlattenResult (some [partFalsyJson]) := by
  refine ⟨rfl, rfl, ?_⟩
  decide

-- ---------------------------------------------------------------------------
-- C5: the sanitization pipeline.  The code strips surrounding whitespace
-- before lower-casing while the spec description does not mention it; the
-- lemmas below show the strip is absorbed by the
-- replace/collapse/trim-underscores pipeline, so the two algorithms agree
-- on every input.
-- ---------------------------------------------------------------------------

lemma isEmpty_eq_true_iff (l : List Char) : l.isEmpty = true ↔ l = [] := by
  cases l <;> simp

lemma reverse_isEmpty (l : List Char) : l.reverse.isEmpty = l.isEmpty := by
  cases hr : l.reverse.isEmpty <;> cases h : l.isEmpty <;> try rfl
  · exfalso
    have hl : l = [] := (isEmpty_eq_true_iff l).1 h
    subst hl
    simp at hr
  · exfalso
    have hl : l.reverse = [] := (isEmpty_eq_true_iff _).1 hr
    have : l = [] := by simpa using congrArg List.reverse hl
    subst this
    simp at h

lemma rdropWhile_cons (p : Char → Bool) (a : Char) (l : List Char) :
    List.rdropWhile p (a :: l) =
      if (List.rdropWhile p l).isEmpty then (if p a then [] else [a])
      else a :: List.rdropWhile p l := by
  have h1 : (a :: l).reverse = l.reverse ++ [a] := by simp
  rw [List.rdropWhile, h1, List.dropWhile_append]
  by_cases hE : (l.reverse.dropWhile p).isEmpty
  · have hE2 : (List.rdropWhile p l).isEmpty = true := by
      rw [List.rdropWhile, reverse_isEmpty]
      exact hE
    rw [if_pos hE, if_pos hE2]
    by_cases hpa : p a
    · simp [List.dropWhile_cons, hpa]
    · simp [List.dropWhile_cons, hpa]
  · have hE2 : ¬((List.rdropWhile p l).isEmpty = true) := by
      rw [List.rdropWhile, reverse_isEmpty]
      exact hE
    rw [if_neg hE, if_neg hE2]
    simp [List.rdropWhile]

lemma rdropWhile_decomp (p : Char → Bool) (l : List Char) :
    ∃ u, l = l.rdropWhile p ++ u ∧ ∀ c ∈ u, p c = true := by
  refine ⟨l.rtakeWhile p, ?_, ?_⟩
  · rw [List.rdropWhile, List.rtakeWhile, ← List.reverse_append,
      List.takeWhile_append_dropWhile, List.reverse_reverse]
  · intro c hc
    rw [List.rtakeWhile] at hc
    exact List.mem_takeWhile_imp (List.mem_reverse.1 hc)

lemma collapseU_cons_cons (a b : Char) (t : List Char) :
    collapseU (a :: b :: t) =
      if a = '_' && b = '_' then collapseU (b :: t) else a :: collapseU (b :: t) := rfl

lemma rdropWhile_collapseU_snoc (m : List Char) :
    List.rdropWhile (· = '_') (collapseU (m ++ ['_'])) =
      List.rdropWhile (· = '_') (collapseU m) := by
  induction m with
  | nil =>
      show List.rdropWhile (· = '_') (collapseU ['_']) = _
      simp [collapseU, List.rdropWhile, List.dropWhile]
  | cons a t ih =>
      cases t with
      | nil =>
          show List.rdropWhile (· = '_') (collapseU [a, '_']) = _
          rw [collapseU_cons_cons]
          by_cases ha : a = '_'
          · rw [if_pos (by simp [ha])]
            simp [ha, collapseU, List.rdropWhile, List.dropWhile]
          · rw [if_neg (by simp [ha])]
            show List.rdropWhile (· = '_') ([a] ++ ['_']) = _
            rw [List.rdropWhile_concat_pos _ _ _ (by simp)]
            simp [collapseU, List.rdropWhile]
      | cons b u =>
          show List.rdropWhile (· = '_') (collapseU (a :: b :: (u ++ ['_']))) = _
          rw [collapseU_cons_cons, collapseU_cons_cons]
          have ihx : List.rdropWhile (· = '_') (collapseU (b :: (u ++ ['_']))) =
              List.rdropWhile (· = '_') (collapseU (b :: u)) := ih
          by_cases hab : (decide (a = '_') && decide (b = '_')) = true
          · rw [if_pos hab, if_pos hab]
            exact ihx
          · rw [if_neg hab, if_neg hab]
            rw [rdropWhile_cons, rdropWhile_cons, ihx]

lemma rdropWhile_dropWhile_comm (p : Char → Bool) (l : List Char) :
    List.rdropWhile p (l.dropWhile p) = (List.rdropWhile p l).dropWhile p := by
  induction l with
  | nil => simp [List.rdropWhile]
  | cons a t ih =>
      by_cases hpa : p a
      · rw [List.dropWhile_cons, if_pos hpa, rdropWhile_cons]
        by_cases hE : (List.rdropWhile p t).isEmpty
        · rw [if_pos hE, if_pos hpa]
          have hnil : List.rdropWhile p t = [] := (isEmpty_eq_true_iff _).1 hE
          have hall : ∀ x ∈ t, p x := List.rdropWhile_eq_nil_iff.1 hnil
          have hdw : t.dropWhile p = [] := List.dropWhile_eq_nil_iff.2 hall
          rw [hdw]
          simp [List.rdropWhile, List.dropWhile]
        · rw [if_neg hE, List.dropWhile_cons, if_pos hpa]
          exact ih
      · rw [List.dropWhile_cons, if_neg hpa, rdropWhile_cons]
        by_cases hE : (List.rdropWhile p t).isEmpty
        · rw [if_pos hE, if_neg hpa]
          simp [List.dropWhile_cons, hpa]
        · rw [if_neg hE, List.dropWhile_cons, if_neg hpa]

lemma stripU_collapseU_cons_underscore (m : List Char) :
    stripUnderscore (collapseU ('_' :: m)) = stripUnderscore (collapseU m) := by
  cases m with
  | nil => simp [collapseU, stripUnderscore, List.dropWhile, List.rdropWhile]
  | cons b t =>
      rw [collapseU_cons_cons]
      by_cases hb : b = '_'
      · rw [if_pos (by simp [hb])]
      · rw [if_neg (by simp [hb])]
        unfold stripUnderscore
        rw [List.dropWhile_cons, if_pos (by simp)]

lemma stripU_collapseU_snoc_underscore (m : List Char) :
    stripUnderscore (collapseU (m ++ ['_'])) = stripUnderscore (collapseU m) := by
  unfold stripUnderscore
  rw [rdropWhile_dropWhile_comm, rdropWhile_dropWhile_comm,
    rdropWhile_collapseU_snoc]

lemma stripU_collapseU_front (u : List Char) (hu : ∀ c ∈ u, c = '_') :
    ∀ m, stripUnderscore (collapseU (u ++ m)) = stripUnderscore (collapseU m) := by
  induction u with
  | nil => intro m; rfl
  | cons c t ih =>
      intro m
      have hc : c = '_' := hu c (List.mem_cons_self c t)
      subst hc
      rw [List.cons_append, stripU_collapseU_cons_underscore]
      exact ih (fun x hx => hu x (List.mem_cons_of_mem _ hx)) m

lemma stripU_collapseU_suffix (u : List Char) (hu : ∀ c ∈ u, c = '_') :
    ∀ m, stripUnderscore (collapseU (m ++ u)) = stripUnderscore (collapseU m) := by
  induction u with
  | nil => intro m; rw [List.append_nil]
  | cons c t ih =>
      intro m
      have hc : c = '_' := hu c (List.mem_cons_self c t)
      subst hc
      have hsplit : m ++ '_' :: t = (m ++ ['_']) ++ t := by simp
      rw [hsplit, ih (fun x hx => hu x (List.mem_cons_of_mem _ hx)) (m ++ ['_']),
        stripU_collapseU_snoc_underscore]

lemma replaceBad_ws_underscore (c : Char) (h : isPyWs c = true) :
    (if isSanitizedChar (asciiLower c) then asciiLower c else '_') = '_' := by
  simp only [isPyWs, Bool.or_eq_true, decide_eq_true_eq] at h
  rcases h with ((((h | h) | h) | h) | h) | h <;> subst h <;> rfl

lemma replaceBad_append (x y : List Char) :
    replaceBad (x ++ y) = replaceBad x ++ replaceBad y := by
  simp [replaceBad]

lemma replaceBad_all_ws (l : List Char) (hl : ∀ c ∈ l, isPyWs c = true) :
    ∀ c ∈ replaceBad (l.map asciiLower), c = '_' := by
  intro c hc
  rw [replaceBad, List.map_map] at hc
  obtain ⟨x, hx, rfl⟩ := List.mem_map.1 hc
  exact replaceBad_ws_underscore x (hl x hx)

lemma sanitizeBody_strip (s : String) :
    sanitizeBody (pyStrip s).data = sanitizeBody s.data := by
  have key : stripUnderscore (collapseU (replaceBad ((pyStrip s).data.map asciiLower))) =
      stripUnderscore (collapseU (replaceBad (s.data.map asciiLower))) := by
    obtain ⟨u, hu, hul⟩ := rdropWhile_decomp isPyWs (s.data.dropWhile isPyWs)
    have hdata : (pyStrip s).data = (s.data.dropWhile isPyWs).rdropWhile isPyWs := rfl
    have hsplit : s.data = s.data.takeWhile isPyWs ++ ((pyStrip s).data ++ u) := by
      rw [hdata, ← hu, List.takeWhile_append_dropWhile]
    have hA : ∀ c ∈ replaceBad ((s.data.takeWhile isPyWs).map asciiLower), c = '_' :=
      replaceBad_all_ws _ (fun c hc => List.mem_takeWhile_imp hc)
    have hU : ∀ c ∈ replaceBad (u.map asciiLower), c = '_' :=
      replaceBad_all_ws _ hul
    calc stripUnderscore (collapseU (replaceBad ((pyStrip s).data.map asciiLower)))
        = stripUnderscore (collapseU (replaceBad ((pyStrip s).data.map asciiLower) ++
            replaceBad (u.map asciiLower))) :=
          (stripU_collapseU_suffix _ hU _).symm
      _ = stripUnderscore (collapseU
            (replaceBad ((s.data.takeWhile isPyWs).map asciiLower) ++
              (replaceBad ((pyStrip s).data.map asciiLower) ++
                replaceBad (u.map asciiLower)))) :=
          (stripU_collapseU_front _ hA _).symm
      _ = stripUnderscore (collapseU (replaceBad (s.data.map asciiLower))) := by
          rw [← replaceBad_append, ← replaceBad_append, ← List.map_append,
            ← List.map_append, ← hsplit]
  simp only [sanitizeBody, key]

/-- Claim C5: `_sanitize_function_name` is a total deterministic function
(a Lean function by construction) equal, at the server label this
repository uses, to the reference algorithm of the spec: lower-case,
replace every character outside `[a-z0-9_]` with an underscore, collapse
runs of underscores, trim leading/trailing underscores, prefix the
fallback token when the result is empty or does not start with a letter or
underscore, prepend the label and a double underscore, and truncate to 64
characters.  The initial whitespace strip the code performs is absorbed by
the pipeline, so it does not change the result. -/
theorem sanitize_matches_spec (name : String) :
    sanitizeFunctionName name SERVER_LABEL = specSanitizeFunctionName SERVER_LABEL name := by
  unfold sanitizeFunctionName specSanitizeFunctionName SERVER_LABEL
  rw [sanitizeBody_strip]
  rfl

-- ---------------------------------------------------------------------------
-- C3: bridged tool names
-- ---------------------------------------------------------------------------

lemma replaceBad_chars (l : List Char) : ∀ c ∈ replaceBad l, isSanitizedChar c = true := by
  intro c hc
  rw [replaceBad] at hc
  obtain ⟨x, hx, rfl⟩ := List.mem_map.1 hc
  by_cases h : isSanitizedChar x = true
  · rw [if_pos h]
    exact h
  · rw [if_neg h]
    rfl

lemma collapseU_subset : ∀ (l : List Char), ∀ c ∈ collapseU l, c ∈ l := by
  intro l
  induction l with
  | nil => simp [collapseU]
  | cons a t ih =>
      cases t with
      | nil => simp [collapseU]
      | cons b u =>
          intro c hc
          rw [collapseU_cons_cons] at hc
          by_cases hab : (decide (a = '_') && decide (b = '_')) = true
          · rw [if_pos hab] at hc
            exact List.mem_cons_of_mem a (ih c hc)
          · rw [if_neg hab] at hc
            rcases List.mem_cons.1 hc with h | h
            · exact h ▸ List.mem_cons_self a _
            · exact List.mem_cons_of_mem a (ih c h)

lemma stripUnderscore_subset (l : List Char) : ∀ c ∈ stripUnderscore l, c ∈ l := by
  intro c hc
  unfold stripUnderscore at hc
  have h1 : c ∈ l.dropWhile (· = '_') :=
    (List.rdropWhile_prefix _ _).subset hc
  exact (List.dropWhile_sublist _).subset h1

lemma sanitizeBody_chars (l : List Char) :
    ∀ c ∈ sanitizeBody l, isSanitizedChar c = true := by
  intro c hc
  simp only [sanitizeBody] at hc
  have hn2 : ∀ x ∈ stripUnderscore (collapseU (replaceBad (l.map asciiLower))),
      isSanitizedChar x = true := fun x hx =>
    replaceBad_chars _ _ (collapseU_subset _ _ (stripUnderscore_subset _ _ hx))
  by_cases h : ((stripUnderscore (collapseU (replaceBad (l.map asciiLower)))).isEmpty ||
      !startsWithLetterOrUnderscore
        (stripUnderscore (collapseU (replaceBad (l.map asciiLower))))) = true
  · rw [if_pos h] at hc
    rcases List.mem_append.1 hc with h1 | h1
    · exact (by decide : ∀ x ∈ "tool_".data, isSanitizedChar x = true) c h1
    · by_cases hemp :
        (stripUnderscore (collapseU (replaceBad (l.map asciiLower)))).isEmpty = true
      · rw [if_pos hemp] at h1
        exact (by decide : ∀ x ∈ "mcp".data, isSanitizedChar x = true) c h1
      · rw [if_neg hemp] at h1
        exact hn2 c h1
  · rw [if_neg h] at hc
    exact hn2 c hc

lemma isWordChar_of_sanitized (c : Char) (h : isSanitizedChar c = true) :
    isWordChar c = true := by
  simp only [isSanitizedChar, isWordChar, Bool.or_eq_true, Bool.and_eq_true,
    decide_eq_true_eq] at h ⊢
  tauto

lemma sanitizeFunctionName_valid (nm : String) :
    matchesIdentPattern (sanitizeFunctionName nm SERVER_LABEL) = true ∧
    (sanitizeFunctionName nm SERVER_LABEL).length ≤ 64 := by
  have hchars : ∀ c ∈ sanitizeBody (pyStrip nm).data, isSanitizedChar c = true :=
    sanitizeBody_chars _
  have hshape : sanitizeFunctionName nm SERVER_LABEL =
      String.mk (('c' ::
        ("ontext7".data ++ ("__".data ++ sanitizeBody (pyStrip nm).data))).take 64) := rfl
  rw [hshape]
  constructor
  · show (match ('c' :: ("ontext7".data ++
        ("__".data ++ sanitizeBody (pyStrip nm).data))).take 64 with
      | [] => false
      | c :: t => startsWithLetterOrUnderscore (c :: t) && (c :: t).all isWordChar) = true
    rw [List.take_succ_cons]
    simp only [startsWithLetterOrUnderscore, Bool.and_eq_true, List.all_eq_true]
    refine ⟨by decide, ?_⟩
    intro x hx
    rcases List.mem_cons.1 hx with h | h
    · subst h; decide
    · have h2 := List.take_subset _ _ h
      rcases List.mem_append.1 h2 with h3 | h3
      · exact (by decide : ∀ y ∈ "ontext7".data, isWordChar y = true) x h3
      · rcases List.mem_append.1 h3 with h4 | h4
        · exact (by decide : ∀ y ∈ "__".data, isWordChar y = true) x h4
        · exact isWordChar_of_sanitized x (hchars x h4)
  · show (('c' :: ("ontext7".data ++
        ("__".data ++ sanitizeBody (pyStrip nm).data))).take 64).length ≤ 64
    rw [List.length_take]
    exact min_le_left _ _

lemma alistHasKey_insert {β : Type} (l : List (String × β)) (k : String) (v : β)
    (n : String) :
    alistHasKey (alistInsert l k v) n = true ↔
      (alistHasKey l n = true ∨ n = k) := by
  induction l with
  | nil =>
      simp [alistInsert, alistHasKey]
      exact eq_comm
  | cons p t ih =>
      by_cases hp : p.1 = k
      · rw [alistInsert, if_pos (by simp [hp])]
        rw [alistHasKey_cons, alistHasKey_cons]
        by_cases hn : n = k
        · subst hn
          simp [hp]
        · have h1 : ¬(k = n) := fun hx => hn hx.symm
          have h2 : ¬(p.1 = n) := fun hx => hn (by rw [← hx, hp])
          simp [h1, h2, hn]
      · rw [alistInsert, if_neg (by simp [hp])]
        rw [alistHasKey_cons, alistHasKey_cons]
        by_cases hq : p.1 = n
        · simp [hq]
        · simp only [if_neg hq]
          rw [ih]

lemma alistInsert_of_not_hasKey {β : Type} (l : List (String × β)) (k : String)
    (v : β) (h : alistHasKey l k = false) : alistInsert l k v = l ++ [(k, v)] := by
  induction l with
  | nil => rfl
  | cons p t ih =>
      rw [alistHasKey_cons] at h
      by_cases hp : p.1 = k
      · rw [if_pos hp] at h
        exact absurd h (by simp)
      · rw [if_neg hp] at h
        rw [alistInsert, if_neg (by simp [hp]), ih h]
        rfl

lemma bridgeAux_cons_none (label : String) (d : McpToolDesc)
    (rest : List McpToolDesc) (tools0 : List FunctionTool)
    (ridx0 : List (String × ReverseEntry)) (hd : d.effectiveName = none) :
    bridgeAux label (d :: rest) tools0 ridx0 = bridgeAux label rest tools0 ridx0 := by
  simp only [bridgeAux, hd]

lemma bridgeAux_cons_some (label : String) (d : McpToolDesc)
    (rest : List McpToolDesc) (tools0 : List FunctionTool)
    (ridx0 : List (String × ReverseEntry)) (nm : String)
    (hd : d.effectiveName = some nm) :
    bridgeAux label (d :: rest) tools0 ridx0 =
      bridgeAux label rest
        (tools0 ++ [{ name := sanitizeFunctionName nm label
                      description := if d.effectiveDesc != "" then d.effectiveDesc else nm
                      parameters := normalizeSchema d.effectiveSchema }])
        (alistInsert ridx0 (sanitizeFunctionName nm label) ⟨label, nm⟩) := by
  simp only [bridgeAux, hd]

lemma bridgeAux_fst_extends (label : String) :
    ∀ (ds : List McpToolDesc) (tools0 : List FunctionTool)
      (ridx0 : List (String × ReverseEntry)),
      ∃ rest, (bridgeAux label ds tools0 ridx0).1 = tools0 ++ rest := by
  intro ds
  induction ds with
  | nil =>
      intro tools0 ridx0
      exact ⟨[], by simp [bridgeAux]⟩
  | cons d rest ih =>
      intro tools0 ridx0
      cases hd : d.effectiveName with
      | none =>
          rw [bridgeAux_cons_none label d rest tools0 ridx0 hd]
          exact ih tools0 ridx0
      | some nm =>
          rw [bridgeAux_cons_some label d rest tools0 ridx0 nm hd]
          obtain ⟨r2, hr2⟩ := ih (tools0 ++
              [({ name := sanitizeFunctionName nm label
                  description := if d.effectiveDesc != "" then d.effectiveDesc else nm
                  parameters := normalizeSchema d.effectiveSchema } : FunctionTool)])
            (alistInsert ridx0 (sanitizeFunctionName nm label) ⟨label, nm⟩)
          rw [hr2]
          exact ⟨_, by rw [List.append_assoc]⟩

lemma bridgeAux_members (label : String) :
    ∀ (ds : List McpToolDesc) (tools0 : List FunctionTool)
      (ridx0 : List (String × ReverseEntry)) (t : FunctionTool),
      t ∈ (bridgeAux label ds tools0 ridx0).1 →
      t ∈ tools0 ∨ ∃ nm, t.name = sanitizeFunctionName nm label := by
  intro ds
  induction ds with
  | nil =>
      intro tools0 ridx0 t ht
      exact Or.inl ht
  | cons d rest ih =>
      intro tools0 ridx0 t ht
      cases hd : d.effectiveName with
      | none =>
          rw [bridgeAux_cons_none label d rest tools0 ridx0 hd] at ht
          exact ih tools0 ridx0 t ht
      | some nm =>
          rw [bridgeAux_cons_some label d rest tools0 ridx0 nm hd] at ht
          rcases ih _ _ t ht with h | h
          · rcases List.mem_append.1 h with h1 | h1
            · exact Or.inl h1
            · refine Or.inr ⟨nm, ?_⟩
              rcases List.mem_singleton.1 h1 with rfl
              rfl
          · exact Or.inr h

lemma bridgeAux_keys (label : String) :
    ∀ (ds : List McpToolDesc) (tools0 : List FunctionTool)
      (ridx0 : List (String × ReverseEntry)),
      (∀ n, alistHasKey ridx0 n = true ↔ n ∈ tools0.map FunctionTool.name) →
      ∀ n, alistHasKey (bridgeAux label ds tools0 ridx0).2 n = true ↔
        n ∈ (bridgeAux label ds tools0 ridx0).1.map FunctionTool.name := by
  intro ds
  induction ds with
  | nil =>
      intro tools0 ridx0 h n
      exact h n
  | cons d rest ih =>
      intro tools0 ridx0 h n
      cases hd : d.effectiveName with
      | none =>
          rw [bridgeAux_cons_none label d rest tools0 ridx0 hd]
          exact ih tools0 ridx0 h n
      | some nm =>
          rw [bridgeAux_cons_some label d rest tools0 ridx0 nm hd]
          refine ih _ _ ?_ n
          intro m
          rw [alistHasKey_insert]
          rw [List.map_append, List.mem_append]
          constructor
          · rintro (hm | rfl)
            · exact Or.inl ((h m).1 hm)
            · exact Or.inr (by simp)
          · rintro (hm | hm)
            · exact Or.inl ((h m).2 hm)
            · simp at hm
              exact Or.inr hm

lemma bridgeAux_nodup (label : String) :
    ∀ (ds : List McpToolDesc) (tools0 : List FunctionTool)
      (ridx0 : List (String × ReverseEntry)),
      ridx0.map Prod.fst = tools0.map FunctionTool.name →
      (∀ n, alistHasKey ridx0 n = true ↔ n ∈ tools0.map FunctionTool.name) →
      ((bridgeAux label ds tools0 ridx0).1.map FunctionTool.name).Nodup →
      (bridgeAux label ds tools0 ridx0).2.map Prod.fst =
        (bridgeAux label ds tools0 ridx0).1.map FunctionTool.name := by
  intro ds
  induction ds with
  | nil =>
      intro tools0 ridx0 hmap _ _
      exact hmap
  | cons d rest ih =>
      intro tools0 ridx0 hmap hkeys hnodup
      cases hd : d.effectiveName with
      | none =>
          rw [bridgeAux_cons_none label d rest tools0 ridx0 hd] at hnodup ⊢
          exact ih tools0 ridx0 hmap hkeys hnodup
      | some nm =>
          rw [bridgeAux_cons_some label d rest tools0 ridx0 nm hd] at hnodup ⊢
          obtain ⟨r2, hr2⟩ := bridgeAux_fst_extends label rest
            (tools0 ++
              [({ name := sanitizeFunctionName nm label
                  description := if d.effectiveDesc != "" then d.effectiveDesc else nm
                  parameters := normalizeSchema d.effectiveSchema } : FunctionTool)])
            (alistInsert ridx0 (sanitizeFunctionName nm label) ⟨label, nm⟩)
          have hnodup2 := hnodup
          rw [hr2, List.append_assoc, List.map_append] at hnodup2
          have hdisj := List.disjoint_of_nodup_append hnodup2
          have hfresh : sanitizeFunctionName nm label ∉ tools0.map FunctionTool.name :=
            fun hmem => hdisj hmem (by simp)
          have hnk : alistHasKey ridx0 (sanitizeFunctionName nm label) = false := by
            cases hv : alistHasKey ridx0 (sanitizeFunctionName nm label)
            · rfl
            · exact absurd ((hkeys _).1 hv) hfresh
          refine ih _ _ ?_ ?_ hnodup
          · rw [alistInsert_of_not_hasKey _ _ _ hnk]
            simp [hmap]
          · intro m
            rw [alistHasKey_insert]
            rw [List.map_append, List.mem_append]
            constructor
            · rintro (hm | rfl)
              · exact Or.inl ((hkeys m).1 hm)
              · exact Or.inr (by simp)
            · rintro (hm | hm)
              · exact Or.inl ((hkeys m).2 hm)
              · simp at hm
                exact Or.inr hm

/-- Claim C3 (amended): every exposed name produced by the bridge at the
server label of this repository matches `[A-Za-z_][A-Za-z0-9_]*` and has
length at most 64, and the reverse-index keys are exactly the exposed
names of the bridged tools.  Uniqueness of exposed names can fail (two raw
names may sanitize to the same exposed name, in which case the tool list
has duplicates and the reverse index keeps a single, last-written entry);
when the exposed names are pairwise distinct, the reverse index is in
order-preserving bijection with the bridged tools. -/
theorem bridge_names_spec (ds : List McpToolDesc) :
    (∀ t ∈ (bridgeMcpToolsToFunctionTools ds SERVER_LABEL).1,
        matchesIdentPattern t.name = true ∧ t.name.length ≤ 64) ∧
    (∀ n, alistHasKey (bridgeMcpToolsToFunctionTools ds SERVER_LABEL).2 n = true ↔
        n ∈ (bridgeMcpToolsToFunctionTools ds SERVER_LABEL).1.map FunctionTool.name) ∧
    (((bridgeMcpToolsToFunctionTools ds SERVER_LABEL).1.map FunctionTool.name).Nodup →
        (bridgeMcpToolsToFunctionTools ds SERVER_LABEL).2.map Prod.fst =
          (bridgeMcpToolsToFunctionTools ds SERVER_LABEL).1.map FunctionTool.name) := by
  refine ⟨?_, ?_, ?_⟩
  · intro t ht
    rcases bridgeAux_members SERVER_LABEL ds [] [] t ht with h | ⟨nm, hnm⟩
    · exact absurd h (List.not_mem_nil t)
    · rw [hnm]
      exact sanitizeFunctionName_valid nm
  · exact bridgeAux_keys SERVER_LABEL ds [] [] (by simp [alistHasKey])
  · exact bridgeAux_nodup SERVER_LABEL ds [] [] rfl (by simp [alistHasKey])

/-- Counterexample to claim C3 as stated: the raw names `"a-b"` and
`"a_b"` sanitize to the same exposed name, so the bridged tool set
contains a duplicate name and the reverse index (one entry per key) cannot
be in bijection with the two bridged tools. -/
theorem bridge_collision_counterexample :
    (bridgeMcpToolsToFunctionTools [descDashName, descUnderscoreName]
        SERVER_LABEL).1.map FunctionTool.name =
      ["context7__a_b", "context7__a_b"] ∧
    ¬ ((bridgeMcpToolsToFunctionTools [descDashName, descUnderscoreName]
        SERVER_LABEL).1.map FunctionTool.name).Nodup ∧
    (bridgeMcpToolsToFunctionTools [descDashName, descUnderscoreName]
        SERVER_LABEL).2.length = 1 := by
  refine ⟨rfl, by decide, rfl⟩

/-- Witness for C3 at a one-descriptor batch. -/
theorem bridge_names_spec_witness :
    (matchesIdentPattern "context7__a_b" = true ∧
      ("context7__a_b" : String).length ≤ 64) ∧
    alistHasKey (bridgeMcpToolsToFunctionTools [descDashName] SERVER_LABEL).2
      "context7__a_b" = true ∧
    (bridgeMcpToolsToFunctionTools [descDashName] SERVER_LABEL).2.map Prod.fst =
      (bridgeMcpToolsToFunctionTools [descDashName] SERVER_LABEL).1.map
        FunctionTool.name := by
  have h := bridge_names_spec [descDashName]
  refine ⟨?_, ?_, ?_⟩
  · exact h.1
      { name := "context7__a_b"
        description := "a-b"
        parameters := mkObj [("type", Json.str "object"), ("properties", mkObj [])] }
      (by decide)
  · exact (h.2.1 "context7__a_b").2 (by decide)
  · exact h.2.2 (by decide)

-- ---------------------------------------------------------------------------
-- Lemmas about the agent loop
-- ---------------------------------------------------------------------------

lemma requestsOf_append (a b : List Event) :
    requestsOf (a ++ b) = requestsOf a ++ requestsOf b :=
  List.filterMap_append a b _

lemma chainNext_cons (env : Env) (k : Nat) (rid : Option String)
    (r : Request) (rest : List Request) :
    chainNext env k rid (r :: rest) =
      chainNext env (k + 1) (some (env.create k r).id) rest := rfl

lemma chainFrom_append (env : Env) :
    ∀ (rs1 rs2 : List Request) (k : Nat) (rid : Option String),
      chainFrom env k rid rs1 →
      chainFrom env (k + rs1.length) (chainNext env k rid rs1) rs2 →
      chainFrom env k rid (rs1 ++ rs2) := by
  intro rs1
  induction rs1 with
  | nil =>
      intro rs2 k rid _ h2
      simpa [chainNext] using h2
  | cons r rest ih =>
      intro rs2 k rid h1 h2
      obtain ⟨ha, hb, hc⟩ := h1
      refine ⟨ha, hb, ?_⟩
      refine ih rs2 (k + 1) (some (env.create k r).id) hc ?_
      have harith : k + 1 + rest.length = k + (r :: rest).length := by
        simp only [List.length_cons]
        omega
      rw [harith]
      exact h2

lemma dispatchResolved_no_api (env : Env) (cfg : AgentConfig) (f : String)
    (a : Json) : requestsOf (dispatchResolved env cfg f a).2 = [] := by
  unfold dispatchResolved
  repeat' split
  all_goals try simp only []
  repeat' split
  all_goals rfl

lemma dispatchResolved_timeout (env : Env) (cfg : AgentConfig) (f : String)
    (a : Json) (cmd : String) (t : Int) (k : Bool)
    (hmem : Event.bashProcess cmd t (.raisedTimeoutExpired k) ∈
      (dispatchResolved env cfg f a).2) :
    k = true ∧ (dispatchResolved env cfg f a).1 = .error (.timeoutExpired cmd) := by
  unfold dispatchResolved at hmem ⊢
  by_cases hb : (f == "bash") = true
  · rw [if_pos hb] at hmem ⊢
    cases hc : pyDictGet a "command" (Json.str "") with
    | error e => simp only [hc] at hmem; simp at hmem
    | ok cj =>
        simp only [hc] at hmem ⊢
        cases hs : expectStr "command" cj with
        | error e => simp only [hs] at hmem; simp at hmem
        | ok command =>
            simp only [hs] at hmem ⊢
            cases ht : pyDictGet a "timeout_sec" (Json.num 120) with
            | error e => simp only [ht] at hmem; simp at hmem
            | ok tJ =>
                simp only [ht] at hmem ⊢
                cases hi : pyToInt tJ with
                | error e => simp only [hi] at hmem; simp at hmem
                | ok tsec =>
                    simp only [hi] at hmem ⊢
                    cases ho : env.bashOutcome command tsec with
                    | completed rc out err =>
                        simp only [ho, subprocessRun, runBash] at hmem
                        simp at hmem
                    | timedOut =>
                        simp only [ho, subprocessRun, runBash] at hmem ⊢
                        simp at hmem
                        obtain ⟨h1, h2, h3⟩ := hmem
                        subst h1
                        subst h3
                        exact ⟨rfl, rfl⟩
  · rw [if_neg hb] at hmem ⊢
    cases hl : alistLookup cfg.ridx f with
    | none => simp only [hl] at hmem; simp at hmem
    | some entry => simp only [hl] at hmem; simp at hmem

lemma dispatchCall_no_api (env : Env) (cfg : AgentConfig) (c : FnCall) :
    requestsOf (dispatchCall env cfg c).2 = [] :=
  dispatchResolved_no_api env cfg c.name _

lemma dispatchCall_timeout (env : Env) (cfg : AgentConfig) (c : FnCall)
    (cmd : String) (t : Int) (k : Bool)
    (hmem : Event.bashProcess cmd t (.raisedTimeoutExpired k) ∈
      (dispatchCall env cfg c).2) :
    k = true ∧ (dispatchCall env cfg c).1 = .error (.timeoutExpired cmd) :=
  dispatchResolved_timeout env cfg c.name _ cmd t k hmem

lemma execCalls_nil (env : Env) (cfg : AgentConfig) (acc : List InputItem)
    (st : LoopSt) : execCalls env cfg [] acc st = (.ok (.outputs acc), st) := rfl

lemma execCalls_cons_noconfirm (env : Env) (ms : Nat)
    (ridx : List (String × ReverseEntry)) (c : FnCall) (rest : List FnCall)
    (acc : List InputItem) (st : LoopSt) :
    execCalls env ⟨ms, false, ridx⟩ (c :: rest) acc st =
      (match (dispatchCall env ⟨ms, false, ridx⟩ c).1 with
       | .error e =>
           (.error e,
             { st with
                 tool_calls := st.tool_calls + 1
                 trace := st.trace ++ (dispatchCall env ⟨ms, false, ridx⟩ c).2 })
       | .ok out =>
           execCalls env ⟨ms, false, ridx⟩ rest
             (acc ++ [InputItem.functionCallOutput c.id out])
             { st with
                 tool_calls := st.tool_calls + 1
                 trace := st.trace ++ (dispatchCall env ⟨ms, false, ridx⟩ c).2 }) := rfl

lemma execCalls_cons_confirm (env : Env) (ms : Nat)
    (ridx : List (String × ReverseEntry)) (c : FnCall) (rest : List FnCall)
    (acc : List InputItem) (st : LoopSt) :
    execCalls env ⟨ms, true, ridx⟩ (c :: rest) acc st =
      (if pyLower (pyStrip (env.userReply st.nPrompts)) == "n" then
        (.ok (.declined (env.create st.nCreates (nudgeReq st))),
          { response_id := some (env.create st.nCreates (nudgeReq st)).id
            step_count := st.step_count
            tool_calls := st.tool_calls + 1
            nCreates := st.nCreates + 1
            nPrompts := st.nPrompts + 1
            trace := st.trace ++ [Event.apiCall (nudgeReq st)] })
      else
        match (dispatchCall env ⟨ms, true, ridx⟩ c).1 with
        | .error e =>
            (.error e,
              { st with
                  tool_calls := st.tool_calls + 1
                  nPrompts := st.nPrompts + 1
                  trace := st.trace ++ (dispatchCall env ⟨ms, true, ridx⟩ c).2 })
        | .ok out =>
            execCalls env ⟨ms, true, ridx⟩ rest
              (acc ++ [InputItem.functionCallOutput c.id out])
              { st with
                  tool_calls := st.tool_calls + 1
                  nPrompts := st.nPrompts + 1
                  trace := st.trace ++ (dispatchCall env ⟨ms, true, ridx⟩ c).2 }) := rfl

/-- Characterization of one tool batch (`for c in calls` in
`BashAndMcpAgent.run`): the trace is extended, `step_count` is untouched,
and the batch ends either without any new request (in a propagating
exception or a complete list of `function_call_output` items, one per
request with the dispatched observation text) or, only under
`confirm=True`, in a decline whose single new request is the corrective
nudge; moreover any timed-out `subprocess.run` in the new events had its
child killed and forces the batch to end in the propagating
`TimeoutExpired`. -/
lemma execCalls_cases (env : Env) (cfg : AgentConfig) :
    ∀ (calls : List FnCall) (acc : List InputItem) (st : LoopSt),
      ∃ evs,
        (execCalls env cfg calls acc st).2.trace = st.trace ++ evs ∧
        (execCalls env cfg calls acc st).2.step_count = st.step_count ∧
        ((requestsOf evs = [] ∧
            (execCalls env cfg calls acc st).2.response_id = st.response_id ∧
            (execCalls env cfg calls acc st).2.nCreates = st.nCreates ∧
            ((∃ e, (execCalls env cfg calls acc st).1 = .error e) ∨
              (execCalls env cfg calls acc st).1 =
                .ok (.outputs (acc ++ calls.map
                  (fun c => InputItem.functionCallOutput c.id
                    (dispatchText env cfg c)))))) ∨
          (cfg.confirm = true ∧
            ∃ req, requestsOf evs = [req] ∧
              req.input =
                [InputItem.message "user" "Declined. Try another approach."] ∧
              req.previous_response_id = st.response_id ∧
              req.store = st.response_id.isNone ∧
              req.toolsExposed = true ∧
              (execCalls env cfg calls acc st).2.response_id =
                some (env.create st.nCreates req).id ∧
              (execCalls env cfg calls acc st).2.nCreates = st.nCreates + 1 ∧
              (execCalls env cfg calls acc st).1 =
                .ok (.declined (env.create st.nCreates req)))) ∧
        (∀ cmd t k, Event.bashProcess cmd t (.raisedTimeoutExpired k) ∈ evs →
          k = true ∧
            (execCalls env cfg calls acc st).1 = .error (.timeoutExpired cmd)) := by
  obtain ⟨ms, confirm, ridx⟩ := cfg
  intro calls
  induction calls with
  | nil =>
      intro acc st
      refine ⟨[], by simp [execCalls_nil], rfl,
        Or.inl ⟨rfl, rfl, rfl, Or.inr (by simp [execCalls_nil])⟩, ?_⟩
      intro cmd t k hmem
      simp at hmem
  | cons c rest ih =>
      intro acc st
      cases confirm with
      | false =>
          rw [execCalls_cons_noconfirm]
          rcases hdc : dispatchCall env ⟨ms, false, ridx⟩ c with ⟨res, evs2⟩
          have hevs2 : (dispatchCall env ⟨ms, false, ridx⟩ c).2 = evs2 := by rw [hdc]
          have hno2 : requestsOf evs2 = [] := by
            rw [← hevs2]; exact dispatchCall_no_api env _ c
          simp only [hdc]
          cases res with
          | error e =>
              refine ⟨evs2, rfl, rfl,
                Or.inl ⟨hno2, rfl, rfl, Or.inl ⟨e, rfl⟩⟩, ?_⟩
              intro cmd t k hmem
              have := dispatchCall_timeout env ⟨ms, false, ridx⟩ c cmd t k
                (by rw [hdc]; exact hmem)
              rw [hdc] at this
              obtain ⟨hk, heq⟩ := this
              refine ⟨hk, ?_⟩
              simp only [Except.error.injEq] at heq
              rw [heq]
          | ok out =>
              have hdt : dispatchText env ⟨ms, false, ridx⟩ c = out := by
                simp [dispatchText, hdc]
              obtain ⟨evs3, h1, h2, h3, h4⟩ :=
                ih (acc ++ [InputItem.functionCallOutput c.id out])
                  { st with
                      tool_calls := st.tool_calls + 1
                      trace := st.trace ++ evs2 }
              refine ⟨evs2 ++ evs3, ?_, h2, ?_, ?_⟩
              · rw [h1]; simp
              · rcases h3 with ⟨hreq, hrid, hncr, hres⟩ | ⟨hconf, _⟩
                · refine Or.inl ⟨?_, hrid, hncr, ?_⟩
                  · rw [requestsOf_append, hno2, hreq]; rfl
                  · rcases hres with ⟨e, he⟩ | hout
                    · exact Or.inl ⟨e, he⟩
                    · refine Or.inr ?_
                      rw [hout]
                      simp [hdt]
                · simp at hconf
              · intro cmd t k hmem
                rcases List.mem_append.1 hmem with hm | hm
                · have := dispatchCall_timeout env ⟨ms, false, ridx⟩ c cmd t k
                    (by rw [hdc]; exact hm)
                  rw [hdc] at this
                  simp at this
                · exact h4 cmd t k hm
      | true =>
          by_cases hr : (pyLower (pyStrip (env.userReply st.nPrompts)) == "n") = true
          · rw [execCalls_cons_confirm, if_pos hr]
            refine ⟨[Event.apiCall (nudgeReq st)], rfl, rfl,
              Or.inr ⟨rfl, nudgeReq st, rfl, rfl, rfl, rfl, rfl, rfl, rfl, rfl⟩, ?_⟩
            intro cmd t k hmem
            simp at hmem
          · rw [execCalls_cons_confirm, if_neg hr]
            rcases hdc : dispatchCall env ⟨ms, true, ridx⟩ c with ⟨res, evs2⟩
            have hevs2 : (dispatchCall env ⟨ms, true, ridx⟩ c).2 = evs2 := by rw [hdc]
            have hno2 : requestsOf evs2 = [] := by
              rw [← hevs2]; exact dispatchCall_no_api env _ c
            simp only [hdc]
            cases res with
            | error e =>
                refine ⟨evs2, rfl, rfl,
                  Or.inl ⟨hno2, rfl, rfl, Or.inl ⟨e, rfl⟩⟩, ?_⟩
                intro cmd t k hmem
                have := dispatchCall_timeout env ⟨ms, true, ridx⟩ c cmd t k
                  (by rw [hdc]; exact hmem)
                rw [hdc] at this
                obtain ⟨hk, heq⟩ := this
                refine ⟨hk, ?_⟩
                simp only [Except.error.injEq] at heq
                rw [heq]
            | ok out =>
                have hdt : dispatchText env ⟨ms, true, ridx⟩ c = out := by
                  simp [dispatchText, hdc]
                obtain ⟨evs3, h1, h2, h3, h4⟩ :=
                  ih (acc ++ [InputItem.functionCallOutput c.id out])
                    { st with
                        tool_calls := st.tool_calls + 1
                        nPrompts := st.nPrompts + 1
                        trace := st.trace ++ evs2 }
                refine ⟨evs2 ++ evs3, ?_, h2, ?_, ?_⟩
                · rw [h1]; simp
                · rcases h3 with ⟨hreq, hrid, hncr, hres⟩ | ⟨hconf, req, hreq, hin, hprev, hstore, htools, hrid, hncr, hres⟩
                  · refine Or.inl ⟨?_, hrid, hncr, ?_⟩
                    · rw [requestsOf_append, hno2, hreq]; rfl
                    · rcases hres with ⟨e, he⟩ | hout
                      · exact Or.inl ⟨e, he⟩
                      · refine Or.inr ?_
                        rw [hout]
                        simp [hdt]
                  · refine Or.inr ⟨?_, req, ?_, hin, hprev, hstore, htools, hrid, hncr, hres⟩
                    · trivial
                    · rw [requestsOf_append, hno2, hreq]; rfl
                · intro cmd t k hmem
                  rcases List.mem_append.1 hmem with hm | hm
                  · have := dispatchCall_timeout env ⟨ms, true, ridx⟩ c cmd t k
                      (by rw [hdc]; exact hm)
                    rw [hdc] at this
                    simp at this
                  · exact h4 cmd t k hm

lemma runLoop_zero (env : Env) (cfg : AgentConfig) (step : Nat)
    (resp : ModelResponse) (st : LoopSt) :
    runLoop env cfg 0 step resp st = (.ok false, st) := rfl

lemma runLoop_succ (env : Env) (cfg : AgentConfig) (n step : Nat)
    (resp : ModelResponse) (st : LoopSt) :
    runLoop env cfg (n + 1) step resp st =
      (match extractFunctionCalls resp with
       | [] => (.ok true, { st with step_count := step })
       | c :: rest =>
           match execCalls env cfg (c :: rest) [] { st with step_count := step } with
           | (.error e, st1) => (.error e, st1)
           | (.ok (.declined resp2), st1) => runLoop env cfg n (step + 1) resp2 st1
           | (.ok (.outputs outs), st1) =>
               runLoop env cfg n (step + 1) (sendToModel env st1 outs true).1
                 (sendToModel env st1 outs true).2) := rfl

/-- Master invariant of the step loop: the trace is extended by events
whose requests are all tool-exposed, correctly chained on the stored
continuation handle, counted by `nCreates`, and (without the confirmation
gate) each answering the full tool batch of the previous response;
`step_count` tracks the executed rounds; a timed-out `subprocess.run`
anywhere in the new events had its child killed and makes the loop end in
the propagating `TimeoutExpired`. -/
lemma runLoop_master (env : Env) (cfg : AgentConfig) :
    ∀ (n step : Nat) (resp : ModelResponse) (st : LoopSt),
      ∃ new,
        (runLoop env cfg n step resp st).2.trace = st.trace ++ new ∧
        (runLoop env cfg n step resp st).2.nCreates =
          st.nCreates + (requestsOf new).length ∧
        (∀ r ∈ requestsOf new, r.toolsExposed = true) ∧
        chainFrom env st.nCreates st.response_id (requestsOf new) ∧
        (runLoop env cfg n step resp st).2.response_id =
          chainNext env st.nCreates st.response_id (requestsOf new) ∧
        (cfg.confirm = false →
          batchChain env cfg st.nCreates resp (requestsOf new)) ∧
        ((runLoop env cfg n step resp st).1 = .ok false →
          (n = 0 ∧ (runLoop env cfg n step resp st).2 = st) ∨
            (runLoop env cfg n step resp st).2.step_count = step + n - 1) ∧
        ((runLoop env cfg n step resp st).1 = .ok true →
          step ≤ (runLoop env cfg n step resp st).2.step_count ∧
            (runLoop env cfg n step resp st).2.step_count + 1 ≤ step + n) ∧
        (∀ cmd t k, Event.bashProcess cmd t (.raisedTimeoutExpired k) ∈ new →
          k = true ∧
            (runLoop env cfg n step resp st).1 = .error (.timeoutExpired cmd)) := by
  intro n
  induction n with
  | zero =>
      intro step resp st
      refine ⟨[], by simp [runLoop_zero], by simp [runLoop_zero, requestsOf],
        ?_, trivial, rfl, fun _ => trivial, fun _ => Or.inl ⟨rfl, rfl⟩, ?_, ?_⟩
      · intro r hr
        simp [requestsOf] at hr
      · intro h
        simp [runLoop_zero] at h
      · intro cmd t k hmem
        simp at hmem
  | succ n ih =>
      intro step resp st
      cases hx : extractFunctionCalls resp with
      | nil =>
          have he : runLoop env cfg (n + 1) step resp st =
              (.ok true, { st with step_count := step }) := by
            rw [runLoop_succ, hx]
          rw [he]
          refine ⟨[], by simp, by simp [requestsOf], ?_, trivial, rfl,
            fun _ => trivial, ?_, ?_, ?_⟩
          · intro r hr
            simp [requestsOf] at hr
          · intro h
            simp at h
          · intro _
            constructor
            · show step ≤ step
              omega
            · show step + 1 ≤ step + (n + 1)
              omega
          · intro cmd t k hmem
            simp at hmem
      | cons c rest =>
          rcases hec : execCalls env cfg (c :: rest) [] { st with step_count := step }
            with ⟨r1, st1⟩
          obtain ⟨evs, hc1, hc2, hc3, hc4⟩ :=
            execCalls_cases env cfg (c :: rest) [] { st with step_count := step }
          rw [hec] at hc1 hc2 hc3 hc4
          have hc1a : st1.trace = st.trace ++ evs := hc1
          have hc2a : st1.step_count = step := hc2
          cases r1 with
          | error e =>
              have he : runLoop env cfg (n + 1) step resp st = (.error e, st1) := by
                rw [runLoop_succ, hx]
                simp only [hec]
              rw [he]
              rcases hc3 with ⟨hreq0, hrid, hncr, _⟩ |
                ⟨_, req, _, _, _, _, _, _, _, hres⟩
              · have hrida : st1.response_id = st.response_id := hrid
                have hncra : st1.nCreates = st.nCreates := hncr
                refine ⟨evs, hc1a, ?_, ?_, ?_, ?_, ?_, ?_, ?_, ?_⟩
                · rw [hncra, hreq0]
                  rfl
                · intro r hr
                  rw [hreq0] at hr
                  simp at hr
                · rw [hreq0]
                  trivial
                · rw [hreq0]
                  exact hrida
                · intro _
                  rw [hreq0]
                  trivial
                · intro h
                  simp at h
                · intro h
                  simp at h
                · intro cmd t k hmem
                  obtain ⟨hk, hr2⟩ := hc4 cmd t k hmem
                  refine ⟨hk, ?_⟩
                  have he2 : e = .timeoutExpired cmd := by
                    simpa using hr2
                  rw [he2]
              · simp at hres
          | ok b =>
              cases b with
              | declined resp2 =>
                  have he : runLoop env cfg (n + 1) step resp st =
                      runLoop env cfg n (step + 1) resp2 st1 := by
                    rw [runLoop_succ, hx]
                    simp only [hec]
                  rw [he]
                  rcases hc3 with ⟨_, _, _, ⟨e, hres⟩ | hres⟩ |
                    ⟨hcf, req, hreq1, hin, hprev, hstore, htools, hrid, hncr, hres⟩
                  · simp at hres
                  · simp at hres
                  · have hprva : req.previous_response_id = st.response_id := hprev
                    have hstoa : req.store = st.response_id.isNone := hstore
                    have hrida : st1.response_id =
                      some (env.create st.nCreates req).id := hrid
                    have hncra : st1.nCreates = st.nCreates + 1 := hncr
                    have hr2 : resp2 = env.create st.nCreates req := by
                      have : BatchOutcome.declined resp2 =
                          BatchOutcome.declined (env.create st.nCreates req) := by
                        exact Except.ok.inj hres
                      exact BatchOutcome.declined.inj this
                    obtain ⟨new2, i1, i2, i3, i4, i5, i6, i7, i8, i9⟩ :=
                      ih (step + 1) resp2 st1
                    refine ⟨evs ++ new2, ?_, ?_, ?_, ?_, ?_, ?_, ?_, ?_, ?_⟩
                    · rw [i1, hc1a]
                      simp
                    · rw [i2, hncra, requestsOf_append, hreq1]
                      simp only [List.singleton_append, List.length_cons,
                        List.length_append]
                      omega
                    · intro r hr
                      rw [requestsOf_append, hreq1] at hr
                      rcases List.mem_append.1 hr with hr2 | hr2
                      · rcases List.mem_singleton.1 hr2 with rfl
                        exact htools
                      · exact i3 r hr2
                    · rw [requestsOf_append, hreq1, List.singleton_append]
                      refine ⟨hprva, hstoa, ?_⟩
                      rw [hncra, hrida] at i4
                      exact i4
                    · rw [requestsOf_append, hreq1, List.singleton_append,
                        chainNext_cons]
                      rw [hncra, hrida] at i5
                      exact i5
                    · intro hcfalse
                      rw [hcfalse] at hcf
                      simp at hcf
                    · intro h
                      rcases i7 h with ⟨hn0, hst⟩ | hsc
                      · subst hn0
                        right
                        rw [hst, hc2a]
                        omega
                      · right
                        rw [hsc]
                        omega
                    · intro h
                      obtain ⟨ha, hb⟩ := i8 h
                      exact ⟨by omega, by omega⟩
                    · intro cmd t k hmem
                      rcases List.mem_append.1 hmem with hm | hm
                      · obtain ⟨_, habs⟩ := hc4 cmd t k hm
                        simp at habs
                      · exact i9 cmd t k hm
              | outputs outs =>
                  have he : runLoop env cfg (n + 1) step resp st =
                      runLoop env cfg n (step + 1)
                        (sendToModel env st1 outs true).1
                        (sendToModel env st1 outs true).2 := by
                    rw [runLoop_succ, hx]
                    simp only [hec]
                  rw [he]
                  rcases hc3 with ⟨hreq0, hrid, hncr, ⟨e, hres⟩ | hres⟩ |
                    ⟨_, req, _, _, _, _, _, _, _, hres⟩
                  · simp at hres
                  · have hrida : st1.response_id = st.response_id := hrid
                    have hncra : st1.nCreates = st.nCreates := hncr
                    have houts : outs = (c :: rest).map
                        (fun c2 => InputItem.functionCallOutput c2.id
                          (dispatchText env cfg c2)) := by
                      have := Except.ok.inj hres
                      have h2 := BatchOutcome.outputs.inj this
                      simpa using h2
                    obtain ⟨new2, i1, i2, i3, i4, i5, i6, i7, i8, i9⟩ :=
                      ih (step + 1) (sendToModel env st1 outs true).1
                        (sendToModel env st1 outs true).2
                    have i1a : (runLoop env cfg n (step + 1)
                        (sendToModel env st1 outs true).1
                        (sendToModel env st1 outs true).2).2.trace =
                        (st1.trace ++ [Event.apiCall (sendReq st1 outs true)]) ++
                          new2 := i1
                    have i2a : (runLoop env cfg n (step + 1)
                        (sendToModel env st1 outs true).1
                        (sendToModel env st1 outs true).2).2.nCreates =
                        (st1.nCreates + 1) + (requestsOf new2).length := i2
                    have i4a : chainFrom env (st1.nCreates + 1)
                        (some (env.create st1.nCreates (sendReq st1 outs true)).id)
                        (requestsOf new2) := i4
                    have i5a : (runLoop env cfg n (step + 1)
                        (sendToModel env st1 outs true).1
                        (sendToModel env st1 outs true).2).2.response_id =
                        chainNext env (st1.nCreates + 1)
                          (some (env.create st1.nCreates (sendReq st1 outs true)).id)
                          (requestsOf new2) := i5
                    have i6a : cfg.confirm = false →
                        batchChain env cfg (st1.nCreates + 1)
                          (env.create st1.nCreates (sendReq st1 outs true))
                          (requestsOf new2) := i6
                    refine ⟨evs ++ [Event.apiCall (sendReq st1 outs true)] ++ new2,
                      ?_, ?_, ?_, ?_, ?_, ?_, ?_, ?_, ?_⟩
                    · rw [i1a, hc1a]
                      simp
                    · rw [i2a, hncra, requestsOf_append, requestsOf_append, hreq0]
                      simp only [List.nil_append, List.length_append]
                      have : requestsOf [Event.apiCall (sendReq st1 outs true)] =
                        [sendReq st1 outs true] := rfl
                      rw [this]
                      simp only [List.length_cons, List.length_nil]
                      omega
                    · intro r hr
                      rw [requestsOf_append, requestsOf_append, hreq0] at hr
                      simp only [List.nil_append] at hr
                      rcases List.mem_append.1 hr with hr2 | hr2
                      · have : requestsOf [Event.apiCall (sendReq st1 outs true)] =
                          [sendReq st1 outs true] := rfl
                        rw [this] at hr2
                        rcases List.mem_singleton.1 hr2 with rfl
                        rfl
                      · exact i3 r hr2
                    · rw [requestsOf_append, requestsOf_append, hreq0]
                      simp only [List.nil_append]
                      have hro : requestsOf [Event.apiCall (sendReq st1 outs true)] =
                        [sendReq st1 outs true] := rfl
                      rw [hro, List.singleton_append]
                      refine ⟨hrida, ?_, ?_⟩
                      · exact congrArg Option.isNone hrida
                      · rw [hncra] at i4a
                        exact i4a
                    · rw [requestsOf_append, requestsOf_append, hreq0]
                      simp only [List.nil_append]
                      have hro : requestsOf [Event.apiCall (sendReq st1 outs true)] =
                        [sendReq st1 outs true] := rfl
                      rw [hro, List.singleton_append, chainNext_cons]
                      rw [hncra] at i5a
                      exact i5a
                    · intro hcfalse
                      rw [requestsOf_append, requestsOf_append, hreq0]
                      simp only [List.nil_append]
                      have hro : requestsOf [Event.apiCall (sendReq st1 outs true)] =
                        [sendReq st1 outs true] := rfl
                      rw [hro, List.singleton_append]
                      refine ⟨?_, ?_, ?_⟩
                      · show outs = (extractFunctionCalls resp).map
                          (fun c2 => InputItem.functionCallOutput c2.id
                            (dispatchText env cfg c2))
                        rw [hx]
                        exact houts
                      · rw [hx]
                        simp
                      · rw [hncra] at i6a
                        exact i6a hcfalse
                    · intro h
                      rcases i7 h with ⟨hn0, hst⟩ | hsc
                      · subst hn0
                        right
                        rw [hst]
                        have : (sendToModel env st1 outs true).2.step_count =
                          step := hc2a
                        rw [this]
                        omega
                      · right
                        rw [hsc]
                        omega
                    · intro h
                      obtain ⟨ha, hb⟩ := i8 h
                      exact ⟨by omega, by omega⟩
                    · intro cmd t k hmem
                      rcases List.mem_append.1 hmem with hm | hm
                      · rcases List.mem_append.1 hm with hm2 | hm2
                        · obtain ⟨_, habs⟩ := hc4 cmd t k hm2
                          simp at habs
                        · simp at hm2
                      · exact i9 cmd t k hm
                  · simp at hres

lemma run_eq (env : Env) (cfg : AgentConfig) (st0 : LoopSt) (task : String) :
    BashAndMcpAgent.run env cfg st0 task =
      (match runLoop env cfg cfg.max_steps 1
          (sendToModel env st0 (initialItems task) true).1
          (sendToModel env st0 (initialItems task) true).2 with
       | (.error e, st1) => (.error e, st1)
       | (.ok false, st1) => (.ok "Stopped: step limit reached.", st1)
       | (.ok true, st1) =>
           (.ok (pyStrip (sendToModel env st1 summaryItems false).1.output_text),
             (sendToModel env st1 summaryItems false).2)) := rfl

lemma chainNext_append (env : Env) :
    ∀ (rs1 rs2 : List Request) (k : Nat) (rid : Option String),
      chainNext env k rid (rs1 ++ rs2) =
        chainNext env (k + rs1.length) (chainNext env k rid rs1) rs2 := by
  intro rs1
  induction rs1 with
  | nil =>
      intro rs2 k rid
      simp [chainNext]
  | cons r rest ih =>
      intro rs2 k rid
      rw [List.cons_append, chainNext_cons, chainNext_cons, ih]
      have harith : k + 1 + rest.length = k + (r :: rest).length := by
        simp only [List.length_cons]
        omega
      rw [harith]

/-- Characterization of the step loop inside `run`, relative to the state
right after the initial request. -/
lemma run_master (env : Env) (cfg : AgentConfig) (st0 : LoopSt) (task : String) :
    ∃ newL rL stB,
      runLoop env cfg cfg.max_steps 1
        (sendToModel env st0 (initialItems task) true).1
        (sendToModel env st0 (initialItems task) true).2 = (rL, stB) ∧
      stB.trace = (st0.trace ++
        [Event.apiCall (sendReq st0 (initialItems task) true)]) ++ newL ∧
      stB.nCreates = st0.nCreates + 1 + (requestsOf newL).length ∧
      (∀ r ∈ requestsOf newL, r.toolsExposed = true) ∧
      chainFrom env (st0.nCreates + 1)
        (some (env.create st0.nCreates (sendReq st0 (initialItems task) true)).id)
        (requestsOf newL) ∧
      stB.response_id = chainNext env (st0.nCreates + 1)
        (some (env.create st0.nCreates (sendReq st0 (initialItems task) true)).id)
        (requestsOf newL) ∧
      (cfg.confirm = false → batchChain env cfg (st0.nCreates + 1)
        (env.create st0.nCreates (sendReq st0 (initialItems task) true))
        (requestsOf newL)) ∧
      (rL = .ok false →
        (cfg.max_steps = 0 ∧
            stB = (sendToModel env st0 (initialItems task) true).2) ∨
          stB.step_count = cfg.max_steps) ∧
      (rL = .ok true → 1 ≤ stB.step_count ∧ stB.step_count ≤ cfg.max_steps) ∧
      (∀ cmd t k, Event.bashProcess cmd t (.raisedTimeoutExpired k) ∈ newL →
        k = true ∧ rL = .error (.timeoutExpired cmd)) := by
  obtain ⟨newL, m1, m2, m3, m4, m5, m6, m7, m8, m9⟩ :=
    runLoop_master env cfg cfg.max_steps 1
      (sendToModel env st0 (initialItems task) true).1
      (sendToModel env st0 (initialItems task) true).2
  rcases hL : runLoop env cfg cfg.max_steps 1
      (sendToModel env st0 (initialItems task) true).1
      (sendToModel env st0 (initialItems task) true).2 with ⟨rL, stB⟩
  rw [hL] at m1 m2 m5 m7 m8 m9
  have m1a : stB.trace = (st0.trace ++
      [Event.apiCall (sendReq st0 (initialItems task) true)]) ++ newL := m1
  have m2a : stB.nCreates = st0.nCreates + 1 + (requestsOf newL).length := m2
  have m4a : chainFrom env (st0.nCreates + 1)
      (some (env.create st0.nCreates (sendReq st0 (initialItems task) true)).id)
      (requestsOf newL) := m4
  have m5a : stB.response_id = chainNext env (st0.nCreates + 1)
      (some (env.create st0.nCreates (sendReq st0 (initialItems task) true)).id)
      (requestsOf newL) := m5
  have m6a : cfg.confirm = false → batchChain env cfg (st0.nCreates + 1)
      (env.create st0.nCreates (sendReq st0 (initialItems task) true))
      (requestsOf newL) := m6
  refine ⟨newL, rL, stB, rfl, m1a, m2a, m3, m4a, m5a, m6a, ?_, ?_, ?_⟩
  · intro h
    rcases m7 h with ⟨hms, hstb⟩ | hsc
    · exact Or.inl ⟨hms, hstb⟩
    · refine Or.inr ?_
      have hsc2 : stB.step_count = 1 + cfg.max_steps - 1 := hsc
      omega
  · intro h
    obtain ⟨ha, hb⟩ := m8 h
    have ha2 : 1 ≤ stB.step_count := ha
    have hb2 : stB.step_count + 1 ≤ 1 + cfg.max_steps := hb
    exact ⟨ha2, by omega⟩
  · intro cmd t k hm
    obtain ⟨hk, hres⟩ := m9 cmd t k hm
    exact ⟨hk, hres⟩

/-- Claim C10 (amended): `run()` does NOT reset the loop state: the first
request of a run supplies whatever continuation handle the constructor or
a previous run left stored (`none` only for a fresh instance), with
`store=True` exactly when no handle is stored; within the run every
subsequent request supplies the stored handle, and the handle returned by
each response unconditionally supersedes the stored one (`chainFrom` /
`chainNext` express exactly this threading). -/
theorem loop_state_threading_spec (env : Env) (cfg : AgentConfig)
    (st0 : LoopSt) (task : String) :
    ∃ new,
      (BashAndMcpAgent.run env cfg st0 task).2.trace = st0.trace ++ new ∧
      requestsOf new ≠ [] ∧
      chainFrom env st0.nCreates st0.response_id (requestsOf new) ∧
      (BashAndMcpAgent.run env cfg st0 task).2.response_id =
        chainNext env st0.nCreates st0.response_id (requestsOf new) := by
  obtain ⟨newL, rL, stB, hL, m1, m2, m3, m4, m5, m6, m7, m8, m9⟩ :=
    run_master env cfg st0 task
  have hro : requestsOf [Event.apiCall (sendReq st0 (initialItems task) true)] =
      [sendReq st0 (initialItems task) true] := rfl
  cases rL with
  | error e =>
      have hr : BashAndMcpAgent.run env cfg st0 task = (.error e, stB) := by
        rw [run_eq, hL]
      refine ⟨[Event.apiCall (sendReq st0 (initialItems task) true)] ++ newL,
        ?_, ?_, ?_, ?_⟩
      · rw [hr]
        show stB.trace = _
        rw [m1]
        simp
      · rw [requestsOf_append, hro]
        simp
      · rw [requestsOf_append, hro, List.singleton_append]
        exact ⟨rfl, rfl, m4⟩
      · rw [hr]
        show stB.response_id = _
        rw [requestsOf_append, hro, List.singleton_append, chainNext_cons]
        exact m5
  | ok b =>
      cases b with
      | false =>
          have hr : BashAndMcpAgent.run env cfg st0 task =
              (.ok "Stopped: step limit reached.", stB) := by
            rw [run_eq, hL]
          refine ⟨[Event.apiCall (sendReq st0 (initialItems task) true)] ++ newL,
            ?_, ?_, ?_, ?_⟩
          · rw [hr]
            show stB.trace = _
            rw [m1]
            simp
          · rw [requestsOf_append, hro]
            simp
          · rw [requestsOf_append, hro, List.singleton_append]
            exact ⟨rfl, rfl, m4⟩
          · rw [hr]
            show stB.response_id = _
            rw [requestsOf_append, hro, List.singleton_append, chainNext_cons]
            exact m5
      | true =>
          have hr : BashAndMcpAgent.run env cfg st0 task =
              (.ok (pyStrip (sendToModel env stB summaryItems false).1.output_text),
                (sendToModel env stB summaryItems false).2) := by
            rw [run_eq, hL]
          have hroS : requestsOf [Event.apiCall (sendReq stB summaryItems false)] =
              [sendReq stB summaryItems false] := rfl
          refine ⟨[Event.apiCall (sendReq st0 (initialItems task) true)] ++
            (newL ++ [Event.apiCall (sendReq stB summaryItems false)]),
            ?_, ?_, ?_, ?_⟩
          · rw [hr]
            show stB.trace ++ [Event.apiCall (sendReq stB summaryItems false)] = _
            rw [m1]
            simp
          · rw [requestsOf_append, hro]
            simp
          · rw [requestsOf_append, hro, List.singleton_append, requestsOf_append,
              hroS]
            refine ⟨rfl, rfl, ?_⟩
            refine chainFrom_append env (requestsOf newL)
              [sendReq stB summaryItems false] (st0.nCreates + 1) _ m4 ?_
            refine ⟨m5, congrArg Option.isNone m5, trivial⟩
          · rw [hr]
            show some (env.create stB.nCreates (sendReq stB summaryItems false)).id
              = _
            rw [requestsOf_append, hro, List.singleton_append, requestsOf_append,
              hroS, chainNext_cons, chainNext_append, chainNext_cons]
            rw [m2]
            rfl

/-- Counterexample to claim C10 as stated: `run()` never resets
`self.response_id`, so the first request of a second `run()` on the same
instance carries the handle left by the first run (`"r1"`) instead of
starting a fresh conversation with no handle. -/
theorem run_reset_counterexample :
    (requestsOf (BashAndMcpAgent.run envPlain cfgPlain initState "t").2.trace).length
      = 2 ∧
    ((requestsOf (BashAndMcpAgent.run envPlain cfgPlain
        (BashAndMcpAgent.run envPlain cfgPlain initState "t").2 "t").2.trace).getD 2
        (sendReq initState [] true)).previous_response_id = some "r1" ∧
    ((requestsOf (BashAndMcpAgent.run envPlain cfgPlain
        (BashAndMcpAgent.run envPlain cfgPlain initState "t").2 "t").2.trace).getD 2
        (sendReq initState [] true)).store = false := by
  exact ⟨rfl, rfl, rfl⟩

/-- Claim C2: every `run()` ends in exactly one of three ways, never
silently: a propagated fatal error (no summary turn: every request has
tools exposed); the step-limit message after `max_steps` rounds with no
summarization turn; or the stripped text of exactly one final summary
turn sent with tools disabled after at most `max_steps` rounds. -/
theorem run_termination_spec (env : Env) (cfg : AgentConfig) (st0 : LoopSt)
    (task : String) :
    ∃ new,
      (BashAndMcpAgent.run env cfg st0 task).2.trace = st0.trace ++ new ∧
      ((∃ e, (BashAndMcpAgent.run env cfg st0 task).1 = .error e ∧
          ∀ r ∈ requestsOf new, r.toolsExposed = true) ∨
       ((BashAndMcpAgent.run env cfg st0 task).1 =
            .ok "Stopped: step limit reached." ∧
          (∀ r ∈ requestsOf new, r.toolsExposed = true) ∧
          (1 ≤ cfg.max_steps →
            (BashAndMcpAgent.run env cfg st0 task).2.step_count =
              cfg.max_steps)) ∨
       (∃ rs q, requestsOf new = rs ++ [q] ∧
          (∀ r ∈ rs, r.toolsExposed = true) ∧
          q.toolsExposed = false ∧
          q.input = summaryItems ∧
          (BashAndMcpAgent.run env cfg st0 task).1 =
            .ok (pyStrip (env.create (st0.nCreates + rs.length) q).output_text) ∧
          1 ≤ (BashAndMcpAgent.run env cfg st0 task).2.step_count ∧
          (BashAndMcpAgent.run env cfg st0 task).2.step_count ≤
            cfg.max_steps)) := by
  obtain ⟨newL, rL, stB, hL, m1, m2, m3, m4, m5, m6, m7, m8, m9⟩ :=
    run_master env cfg st0 task
  have hro : requestsOf [Event.apiCall (sendReq st0 (initialItems task) true)] =
      [sendReq st0 (initialItems task) true] := rfl
  cases rL with
  | error e =>
      have hr : BashAndMcpAgent.run env cfg st0 task = (.error e, stB) := by
        rw [run_eq, hL]
      refine ⟨[Event.apiCall (sendReq st0 (initialItems task) true)] ++ newL,
        ?_, Or.inl ⟨e, by rw [hr], ?_⟩⟩
      · rw [hr]
        show stB.trace = _
        rw [m1]
        simp
      · intro r hrr
        rw [requestsOf_append, hro, List.singleton_append] at hrr
        rcases List.mem_cons.1 hrr with rfl | hrr2
        · rfl
        · exact m3 r hrr2
  | ok b =>
      cases b with
      | false =>
          have hr : BashAndMcpAgent.run env cfg st0 task =
              (.ok "Stopped: step limit reached.", stB) := by
            rw [run_eq, hL]
          refine ⟨[Event.apiCall (sendReq st0 (initialItems task) true)] ++ newL,
            ?_, Or.inr (Or.inl ⟨by rw [hr], ?_, ?_⟩)⟩
          · rw [hr]
            show stB.trace = _
            rw [m1]
            simp
          · intro r hrr
            rw [requestsOf_append, hro, List.singleton_append] at hrr
            rcases List.mem_cons.1 hrr with rfl | hrr2
            · rfl
            · exact m3 r hrr2
          · intro hms
            rcases m7 rfl with ⟨hms0, _⟩ | hsc
            · omega
            · rw [hr]
              exact hsc
      | true =>
          have hr : BashAndMcpAgent.run env cfg st0 task =
              (.ok (pyStrip (sendToModel env stB summaryItems false).1.output_text),
                (sendToModel env stB summaryItems false).2) := by
            rw [run_eq, hL]
          have hroS : requestsOf [Event.apiCall (sendReq stB summaryItems false)] =
              [sendReq stB summaryItems false] := rfl
          refine ⟨[Event.apiCall (sendReq st0 (initialItems task) true)] ++
            (newL ++ [Event.apiCall (sendReq stB summaryItems false)]),
            ?_, Or.inr (Or.inr
              ⟨sendReq st0 (initialItems task) true :: requestsOf newL,
               sendReq stB summaryItems false, ?_, ?_, rfl, rfl, ?_, ?_, ?_⟩)⟩
          · rw [hr]
            show stB.trace ++ [Event.apiCall (sendReq stB summaryItems false)] = _
            rw [m1]
            simp
          · rw [requestsOf_append, hro, List.singleton_append, requestsOf_append,
              hroS]
            rfl
          · intro r hrr
            rcases List.mem_cons.1 hrr with rfl | hrr2
            · rfl
            · exact m3 r hrr2
          · rw [hr]
            have hlen : st0.nCreates +
                (sendReq st0 (initialItems task) true :: requestsOf newL).length =
                stB.nCreates := by
              rw [m2]
              simp only [List.length_cons]
              omega
            rw [hlen]
            rfl
          · rw [hr]
            show 1 ≤ stB.step_count
            exact (m8 rfl).1
          · rw [hr]
            show stB.step_count ≤ cfg.max_steps
            exact (m8 rfl).2

/-- Claim C1 (amended): with the confirmation gate disabled, for every
model turn of a run whose output contains N >= 1 tool-call requests, the
next request consists of exactly the N `function_call_output` items for
that batch, in order and with the matching `call_id` of each of the N
requests (that is `batchChain`); the only other requests of the run are
the initial one and possibly one final tools-disabled summary turn.  With
the gate enabled the property fails (see the decline counterexample). -/
theorem tool_batch_submission (env : Env) (cfg : AgentConfig) (st0 : LoopSt)
    (task : String) (hconf : cfg.confirm = false) :
    ∃ new loopReqs tail,
      (BashAndMcpAgent.run env cfg st0 task).2.trace = st0.trace ++ new ∧
      requestsOf new =
        sendReq st0 (initialItems task) true :: (loopReqs ++ tail) ∧
      batchChain env cfg (st0.nCreates + 1)
        (env.create st0.nCreates (sendReq st0 (initialItems task) true))
        loopReqs ∧
      (tail = [] ∨
        ∃ q, tail = [q] ∧ q.toolsExposed = false ∧ q.input = summaryItems) := by
  obtain ⟨newL, rL, stB, hL, m1, m2, m3, m4, m5, m6, m7, m8, m9⟩ :=
    run_master env cfg st0 task
  have hro : requestsOf [Event.apiCall (sendReq st0 (initialItems task) true)] =
      [sendReq st0 (initialItems task) true] := rfl
  cases rL with
  | error e =>
      have hr : BashAndMcpAgent.run env cfg st0 task = (.error e, stB) := by
        rw [run_eq, hL]
      refine ⟨[Event.apiCall (sendReq st0 (initialItems task) true)] ++ newL,
        requestsOf newL, [], ?_, ?_, m6 hconf, Or.inl rfl⟩
      · rw [hr]
        show stB.trace = _
        rw [m1]
        simp
      · rw [requestsOf_append, hro, List.singleton_append, List.append_nil]
  | ok b =>
      cases b with
      | false =>
          have hr : BashAndMcpAgent.run env cfg st0 task =
              (.ok "Stopped: step limit reached.", stB) := by
            rw [run_eq, hL]
          refine ⟨[Event.apiCall (sendReq st0 (initialItems task) true)] ++ newL,
            requestsOf newL, [], ?_, ?_, m6 hconf, Or.inl rfl⟩
          · rw [hr]
            show stB.trace = _
            rw [m1]
            simp
          · rw [requestsOf_append, hro, List.singleton_append, List.append_nil]
      | true =>
          have hr : BashAndMcpAgent.run env cfg st0 task =
              (.ok (pyStrip (sendToModel env stB summaryItems false).1.output_text),
                (sendToModel env stB summaryItems false).2) := by
            rw [run_eq, hL]
          have hroS : requestsOf [Event.apiCall (sendReq stB summaryItems false)] =
              [sendReq stB summaryItems false] := rfl
          refine ⟨[Event.apiCall (sendReq st0 (initialItems task) true)] ++
            (newL ++ [Event.apiCall (sendReq stB summaryItems false)]),
            requestsOf newL, [sendReq stB summaryItems false], ?_, ?_,
            m6 hconf, Or.inr ⟨sendReq stB summaryItems false, rfl, rfl, rfl⟩⟩
          · rw [hr]
            show stB.trace ++ [Event.apiCall (sendReq stB summaryItems false)] = _
            rw [m1]
            simp
          · rw [requestsOf_append, hro, List.singleton_append, requestsOf_append,
              hroS]

/-- Witness for C1: the batched environment (one turn with two tool
calls) under a gate-free configuration. -/
theorem tool_batch_submission_witness :
    ∃ new loopReqs tail,
      (BashAndMcpAgent.run envBatch cfgBatch initState "t").2.trace =
        initState.trace ++ new ∧
      requestsOf new =
        sendReq initState (initialItems "t") true :: (loopReqs ++ tail) ∧
      batchChain envBatch cfgBatch (initState.nCreates + 1)
        (envBatch.create initState.nCreates (sendReq initState (initialItems "t") true))
        loopReqs ∧
      (tail = [] ∨
        ∃ q, tail = [q] ∧ q.toolsExposed = false ∧ q.input = summaryItems) :=
  tool_batch_submission envBatch cfgBatch initState "t" rfl

/-- Counterexample to claim C1 as stated: with the confirmation gate
enabled, a declined batch is answered by a plain corrective user message,
so the turn's single tool-call request receives no `function_call_output`
item at all before the next model turn. -/
theorem tool_batch_decline_counterexample :
    (extractFunctionCalls (envDecline.create 0
        (sendReq initState (initialItems " my task ") true))).length = 1 ∧
    ((requestsOf (BashAndMcpAgent.run envDecline cfgDecline initState
        " my task ").2.trace).getD 1 (sendReq initState [] true)).input =
      [InputItem.message "user" "Declined. Try another approach."] := by
  exact ⟨rfl, by decide⟩

/-- Claim C7 (amended): when a command exceeds its timeout, the spawned
process is killed (`childKilled = true`, per the `subprocess.run` handler
of the standard library), but the attempt is NOT reported back to the
model: `subprocess.TimeoutExpired` is caught nowhere in the repository, so
the run aborts with the propagating exception. -/
theorem timeout_propagation_spec (env : Env) (cfg : AgentConfig)
    (st0 : LoopSt) (task : String) (cmd : String) (t : Int) (k : Bool)
    (hmem : Event.bashProcess cmd t (.raisedTimeoutExpired k) ∈
      (BashAndMcpAgent.run env cfg st0 task).2.trace)
    (hnot : Event.bashProcess cmd t (.raisedTimeoutExpired k) ∉ st0.trace) :
    k = true ∧
      (BashAndMcpAgent.run env cfg st0 task).1 =
        .error (.timeoutExpired cmd) := by
  obtain ⟨newL, rL, stB, hL, m1, m2, m3, m4, m5, m6, m7, m8, m9⟩ :=
    run_master env cfg st0 task
  cases rL with
  | error e =>
      have hr : BashAndMcpAgent.run env cfg st0 task = (.error e, stB) := by
        rw [run_eq, hL]
      rw [hr] at hmem
      have hmem2 : Event.bashProcess cmd t (.raisedTimeoutExpired k) ∈
          stB.trace := hmem
      rw [m1] at hmem2
      rcases List.mem_append.1 hmem2 with hm | hm
      · rcases List.mem_append.1 hm with hm2 | hm2
        · exact absurd hm2 hnot
        · simp at hm2
      · obtain ⟨hk, hres⟩ := m9 cmd t k hm
        rw [hr]
        refine ⟨hk, ?_⟩
        have he2 : e = .timeoutExpired cmd := by
          exact Except.error.inj hres
        rw [he2]
  | ok b =>
      cases b with
      | false =>
          have hr : BashAndMcpAgent.run env cfg st0 task =
              (.ok "Stopped: step limit reached.", stB) := by
            rw [run_eq, hL]
          rw [hr] at hmem
          have hmem2 : Event.bashProcess cmd t (.raisedTimeoutExpired k) ∈
              stB.trace := hmem
          rw [m1] at hmem2
          rcases List.mem_append.1 hmem2 with hm | hm
          · rcases List.mem_append.1 hm with hm2 | hm2
            · exact absurd hm2 hnot
            · simp at hm2
          · obtain ⟨_, hres⟩ := m9 cmd t k hm
            simp at hres
      | true =>
          have hr : BashAndMcpAgent.run env cfg st0 task =
              (.ok (pyStrip (sendToModel env stB summaryItems false).1.output_text),
                (sendToModel env stB summaryItems false).2) := by
            rw [run_eq, hL]
          rw [hr] at hmem
          have hmem2 : Event.bashProcess cmd t (.raisedTimeoutExpired k) ∈
              stB.trace ++ [Event.apiCall (sendReq stB summaryItems false)] := hmem
          rcases List.mem_append.1 hmem2 with hm0 | hm0
          · rw [m1] at hm0
            rcases List.mem_append.1 hm0 with hm | hm
            · rcases List.mem_append.1 hm with hm2 | hm2
              · exact absurd hm2 hnot
              · simp at hm2
            · obtain ⟨_, hres⟩ := m9 cmd t k hm
              simp at hres
          · simp at hm0

/-- Counterexample to claim C7 as stated: a timed-out `bash` call is not
turned into a tool observation; the run ends with the propagating
`TimeoutExpired` after the single initial request, so nothing is ever
reported back to the model. -/
theorem timeout_observation_counterexample :
    (BashAndMcpAgent.run envTimeout cfgTimeout initState "t").1 =
      .error (.timeoutExpired "sleep 999") ∧
    (requestsOf
      (BashAndMcpAgent.run envTimeout cfgTimeout initState "t").2.trace).length
      = 1 := by
  exact ⟨rfl, rfl⟩

/-- Witness for C7 at the concrete timed-out environment. -/
theorem timeout_propagation_spec_witness :
    true = true ∧
      (BashAndMcpAgent.run envTimeout cfgTimeout initState "t").1 =
        .error (.timeoutExpired "sleep 999") :=
  timeout_propagation_spec envTimeout cfgTimeout initState "t" "sleep 999" 120
    true (by decide) (by decide)

/-- Claim C8: a tool-call request whose exposed name is neither `bash` nor
a reverse-index key does not raise: the loop answers that `call_id` with
the explicit unknown-tool text (which lists the known tool names) and
continues with the remaining requests. -/
theorem unknown_tool_observation (env : Env) (cfg : AgentConfig) (c : FnCall)
    (rest : List FnCall) (acc : List InputItem) (st : LoopSt)
    (hconf : cfg.confirm = false)
    (hname : c.name ≠ "bash")
    (hlook : alistLookup cfg.ridx c.name = none) :
    execCalls env cfg (c :: rest) acc st =
      execCalls env cfg rest
        (acc ++ [InputItem.functionCallOutput c.id
          (unknownToolMsg c.name cfg.ridx)])
        { st with tool_calls := st.tool_calls + 1 } := by
  obtain ⟨ms, confirm, ridx⟩ := cfg
  have hc2 : confirm = false := hconf
  subst hc2
  have hlook2 : alistLookup ridx c.name = none := hlook
  have hb : (c.name == "bash") = false := beq_eq_false_iff_ne.mpr hname
  have hd : dispatchCall env ⟨ms, false, ridx⟩ c =
      (.ok (unknownToolMsg c.name ridx), []) := by
    unfold dispatchCall dispatchResolved
    simp [hb, hlook2]
  rw [execCalls_cons_noconfirm]
  simp [hd]

/-- Witness for C8: the spec scenario (`docs__get_docs` requested while
only `docs__search` is bridged). -/
theorem unknown_tool_observation_witness :
    execCalls envUnknown cfgUnknown
      [⟨"c1", "docs__get_docs", "\x7b\x7d"⟩] [] initState =
      execCalls envUnknown cfgUnknown []
        ([] ++ [InputItem.functionCallOutput "c1"
          (unknownToolMsg "docs__get_docs" cfgUnknown.ridx)])
        { initState with tool_calls := initState.tool_calls + 1 } ∧
    unknownToolMsg "docs__get_docs" cfgUnknown.ridx =
      "Unknown tool: docs__get_docs. Available: docs__search" :=
  ⟨unknown_tool_observation envUnknown cfgUnknown
    ⟨"c1", "docs__get_docs", "\x7b\x7d"⟩ [] [] initState rfl (by decide) rfl,
   rfl⟩

/-- Claim C9: a raw argument string that `json.loads` cannot parse does
not abort the loop: the call is dispatched with an empty argument
mapping. -/
theorem malformed_arguments_fallback (env : Env) (cfg : AgentConfig)
    (c : FnCall) (hjson : env.jloads c.arguments = none) :
    dispatchCall env cfg c = dispatchResolved env cfg c.name (mkObj []) := by
  unfold dispatchCall
  rw [hjson]
  rfl

/-- Witness for C9 at a concrete unparseable argument string. -/
theorem malformed_arguments_fallback_witness :
    dispatchCall envBadJson cfgPlain ⟨"c1", "bash", "not json"⟩ =
      dispatchResolved envBadJson cfgPlain "bash" (mkObj []) :=
  malformed_arguments_fallback envBadJson cfgPlain
    ⟨"c1", "bash", "not json"⟩ rfl

/-- Witness for C2 at the environment that never requests tools. -/
theorem run_termination_spec_witness :
    ∃ new,
      (BashAndMcpAgent.run envPlain cfgPlain initState "t").2.trace =
        initState.trace ++ new ∧
      ((∃ e, (BashAndMcpAgent.run envPlain cfgPlain initState "t").1 = .error e ∧
          ∀ r ∈ requestsOf new, r.toolsExposed = true) ∨
       ((BashAndMcpAgent.run envPlain cfgPlain initState "t").1 =
            .ok "Stopped: step limit reached." ∧
          (∀ r ∈ requestsOf new, r.toolsExposed = true) ∧
          (1 ≤ cfgPlain.max_steps →
            (BashAndMcpAgent.run envPlain cfgPlain initState "t").2.step_count =
              cfgPlain.max_steps)) ∨
       (∃ rs q, requestsOf new = rs ++ [q] ∧
          (∀ r ∈ rs, r.toolsExposed = true) ∧
          q.toolsExposed = false ∧
          q.input = summaryItems ∧
          (BashAndMcpAgent.run envPlain cfgPlain initState "t").1 =
            .ok (pyStrip
              (envPlain.create (initState.nCreates + rs.length) q).output_text) ∧
          1 ≤ (BashAndMcpAgent.run envPlain cfgPlain initState "t").2.step_count ∧
          (BashAndMcpAgent.run envPlain cfgPlain initState "t").2.step_count ≤
            cfgPlain.max_steps)) :=
  run_termination_spec envPlain cfgPlain initState "t"

/-- Witness for C10 at the batched environment. -/
theorem loop_state_threading_spec_witness :
    ∃ new,
      (BashAndMcpAgent.run envBatch cfgBatch initState "t").2.trace =
        initState.trace ++ new ∧
      requestsOf new ≠ [] ∧
      chainFrom envBatch initState.nCreates initState.response_id
        (requestsOf new) ∧
      (BashAndMcpAgent.run envBatch cfgBatch initState "t").2.response_id =
        chainNext envBatch initState.nCreates initState.response_id
          (requestsOf new) :=
  loop_state_threading_spec envBatch cfgBatch initState "t"

end OdscAgents
